import Mathlib

/-!
Type-erased iteration (`iterable.hpp`).

A shallow embedding of `AnyIterator`, its `Adaptor`, `Iterable` and the two
conversion helpers `to_iterable_t` / `to_iterable`.

* A `std::unique_ptr<IteratorWrapper>` is an optional address into an explicit
  heap of capability instances; `make_unique` allocates a fresh cell, the
  destructor releases it.
* Every member function takes the heap and returns the new heap, so that
  sharing between two handles (or its absence) is observable.
* Undefined behaviour is an explicit error value: the embedding is total.
* The containers and their native iterators belong to the standard library.
  A native iterator is a position in the element sequence of its container,
  tagged with the C++ type of the iterator and the identity of the container.
* Template arguments that are types are values of `CType`; every capability
  instance carries the `ValueType` of the `AnyIterator<ValueType>` whose nested
  `Adaptor` it instantiates.
-/

namespace GenericIterator

/-- The ways in which an operation of the header can leave defined behaviour. -/
inductive UB where
  /-- member access through a null pointer -/
  | nullDeref
  /-- `static_cast` to an `Adaptor<Iterator>` that the object is not -/
  | badCast
  /-- a native iterator dereferenced or incremented at its end position -/
  | outOfRange
  /-- access to a capability instance that is not (or no longer) allocated -/
  | dangling
  /-- native `==` on iterators of two different containers, outside its domain -/
  | unrelated
  deriving DecidableEq, Repr

/-! C++ types and the standard type transformations the header uses -/

/-- C++ types, as far as `std::decay` tells them apart. A cv-qualified array type is
written as the array of the cv-qualified element type, as the language defines it. -/
inductive CType where
  /-- a scalar or class type, by name -/
  | named (name : String)
  | const (t : CType)
  | volatile (t : CType)
  | lref (t : CType)
  | rref (t : CType)
  | array (elem : CType) (extent : Nat)
  | pointer (t : CType)
  /-- a function type, by signature -/
  | func (signature : String)
  deriving DecidableEq, Repr

/-- Library `std::remove_reference`. -/
def CType.removeReference : CType → CType
  | .lref t => t
  | .rref t => t
  | t => t

/-- Library `std::remove_cv`: the top-level qualifiers, which for an array type are those
of its elements. -/
def CType.removeCv : CType → CType
  | .const t => t.removeCv
  | .volatile t => t.removeCv
  | .array e n => .array e.removeCv n
  | t => t

/-- Library `std::decay`: remove the reference; then an array becomes a pointer to its
element, a function a pointer to itself, and any other type loses its cv-qualifiers. -/
def CType.decay (t : CType) : CType :=
  match t.removeReference with
  | .array e _ => .pointer e
  | .func s => .pointer (.func s)
  | u => u.removeCv

/-- A native iterator: `ty` is its concrete C++ type, `cont` the identity of the
container it iterates, `seq` the element sequence of that container, `pos` its
position (`seq.length` is the end position). -/
structure NativeIter (K V : Type) where
  ty : K
  cont : Nat
  seq : List V
  pos : Nat
  deriving DecidableEq, Repr

/-- A container as the header sees it: `iterType` is `decltype(std::begin(data))`,
`addr` the identity of the container object, `derefType` is
`decltype(*std::begin(data))`, `elems` the elements in iteration order. -/
structure Container (K V : Type) where
  iterType : K
  addr : Nat
  derefType : CType
  elems : List V
  deriving DecidableEq, Repr

variable {K V : Type}

/-- Native `std::begin(data)`. -/
def Container.begin (data : Container K V) : NativeIter K V :=
  ⟨data.iterType, data.addr, data.elems, 0⟩

/-- Native `std::end(data)`. -/
def Container.end' (data : Container K V) : NativeIter K V :=
  ⟨data.iterType, data.addr, data.elems, data.elems.length⟩

/-- Native `*it`: defined on the positions that hold an element. -/
def NativeIter.deref (it : NativeIter K V) : Except UB V :=
  match it.seq[it.pos]? with
  | some v => .ok v
  | none => .error .outOfRange

/-- Native `++it`: defined on the positions that hold an element. -/
def NativeIter.inc (it : NativeIter K V) : Except UB (NativeIter K V) :=
  if it.pos < it.seq.length then .ok ⟨it.ty, it.cont, it.seq, it.pos + 1⟩
  else .error .outOfRange

/-- Native `a == b`: on two iterators of one container, equality of position; iterators of
two different containers are outside the domain of `==`, whatever their positions. -/
def NativeIter.eq (a b : NativeIter K V) : Except UB Bool :=
  if a.cont = b.cont then .ok (a.pos == b.pos) else .error .unrelated

/-! The heap of capability instances -/

/-- An instance of `AnyIterator<ValueType>::Adaptor<Iterator>`, the only implementer of
`IteratorWrapper`. Its dynamic type is fixed by `valueType`, the `ValueType` of the
enclosing `AnyIterator`, and by the type of the iterator it holds, `iterator_.ty`. -/
structure Adaptor (K V : Type) where
  valueType : CType
  iterator_ : NativeIter K V
  deriving DecidableEq, Repr

/-- The free store: cell `p` holds the capability instance at address `p`, or
`none` once it has been released. Addresses are never reused. -/
structure Heap (K V : Type) where
  cells : List (Option (Adaptor K V))
  deriving DecidableEq, Repr

/-- Allocation, as in `std::make_unique<Adaptor<Iterator>>(..)`: a fresh address. -/
def Heap.alloc (h : Heap K V) (obj : Adaptor K V) : Nat × Heap K V :=
  (h.cells.length, ⟨h.cells ++ [some obj]⟩)

/-- Access to the object behind a non-null pointer. -/
def Heap.read (h : Heap K V) (p : Nat) : Except UB (Adaptor K V) :=
  match h.cells[p]? with
  | some (some obj) => .ok obj
  | _ => .error .dangling

/-- In-place update of the object at address `p`. -/
def Heap.write (h : Heap K V) (p : Nat) (obj : Adaptor K V) : Heap K V :=
  ⟨h.cells.set p (some obj)⟩

/-- Release of the object at address `p` (the `unique_ptr` destructor). -/
def Heap.free (h : Heap K V) (p : Nat) : Heap K V :=
  ⟨h.cells.set p none⟩

/-! `AnyIterator<ValueType>::Adaptor<Iterator>` -/

/-- Constructor `Adaptor(const Iterator& rhs) : iterator_(rhs)` of the adaptor nested in
`AnyIterator<ValueType>`. -/
def Adaptor.ofIterator (ValueType : CType) (rhs : NativeIter K V) : Adaptor K V :=
  ⟨ValueType, rhs⟩

/-- Member `current() const { return *iterator_; }`. The `const ValueType&` it returns is
taken to bind to the element itself, as it does when `ValueType` is the element type, so what
is read through it is the element. -/
def Adaptor.current (self : Adaptor K V) : Except UB V :=
  self.iterator_.deref

/-- The cast `static_cast<const Adaptor<Iterator>*>(rhs)->iterator_` shared by
`equal` and `assign`: no check is made, so it is defined only if `rhs` is
non-null and points to a live object whose dynamic type is the `Adaptor` of
the very same `Iterator` type. Both operands are `IteratorWrapper`s of one
`AnyIterator<ValueType>`, so the `Iterator` argument is all that can differ. -/
def Adaptor.peerIterator [DecidableEq K] (self : Adaptor K V) (h : Heap K V)
    (rhs : Option Nat) : Except UB (NativeIter K V) :=
  match rhs with
  | none => .error .nullDeref
  | some q =>
    match h.read q with
    | .error e => .error e
    | .ok peer =>
      if peer.iterator_.ty = self.iterator_.ty then .ok peer.iterator_
      else .error .badCast

/-- Member `equal(rhs) const { return iterator_ == static_cast<..>(rhs)->iterator_; }`. -/
def Adaptor.equal [DecidableEq K] (self : Adaptor K V) (h : Heap K V)
    (rhs : Option Nat) : Except UB Bool :=
  match self.peerIterator h rhs with
  | .error e => .error e
  | .ok other => self.iterator_.eq other

/-- Member `next() { ++iterator_; }`. -/
def Adaptor.next (self : Adaptor K V) : Except UB (Adaptor K V) :=
  match self.iterator_.inc with
  | .error e => .error e
  | .ok it => .ok ⟨self.valueType, it⟩

/-- Member `assign(rhs) { iterator_ = static_cast<..>(rhs)->iterator_; }`. -/
def Adaptor.assign [DecidableEq K] (self : Adaptor K V) (h : Heap K V)
    (rhs : Option Nat) : Except UB (Adaptor K V) :=
  match self.peerIterator h rhs with
  | .error e => .error e
  | .ok other => .ok ⟨self.valueType, other⟩

/-- Member `clone() const { return std::make_unique<Adaptor<Iterator>>(iterator_); }`. -/
def Adaptor.clone (self : Adaptor K V) (h : Heap K V) : Nat × Heap K V :=
  h.alloc (Adaptor.ofIterator self.valueType self.iterator_)

/-! `AnyIterator<ValueType>` -/

/-- The handle: its only member is `std::unique_ptr<IteratorWrapper> wrapper_`,
`none` being the null pointer. -/
structure AnyIterator where
  wrapper_ : Option Nat
  deriving DecidableEq, Repr

/-- Default constructor `AnyIterator() : wrapper_(nullptr)`. -/
def AnyIterator.empty : AnyIterator := ⟨none⟩

/-- Constructor `AnyIterator(std::unique_ptr<IteratorWrapper> wrapper)`: the pointer is
moved into the member, no object is created. -/
def AnyIterator.ofWrapper (wrapper : Option Nat) : AnyIterator := ⟨wrapper⟩

/-- Copy constructor `AnyIterator(const AnyIterator& other)`: clone what `other` holds, or stay
null. The source heap object is only read. -/
def AnyIterator.copy (h : Heap K V) (other : AnyIterator) :
    Except UB (AnyIterator × Heap K V) :=
  match other.wrapper_ with
  | some p =>
    match h.read p with
    | .error e => .error e
    | .ok obj =>
      let (q, h') := obj.clone h
      .ok (⟨some q⟩, h')
  | none => .ok (⟨none⟩, h)

/-- The implicit destructor: the `unique_ptr` member releases what it owns. -/
def AnyIterator.destroy (h : Heap K V) (self : AnyIterator) : Heap K V :=
  match self.wrapper_ with
  | some p => h.free p
  | none => h

/-- Operator `operator++() { wrapper_->next(); return *this; }`: the held object is
advanced in place and the very same handle is returned. -/
def AnyIterator.inc (h : Heap K V) (self : AnyIterator) :
    Except UB (AnyIterator × Heap K V) :=
  match self.wrapper_ with
  | none => .error .nullDeref
  | some p =>
    match h.read p with
    | .error e => .error e
    | .ok obj =>
      match obj.next with
      | .error e => .error e
      | .ok obj' => .ok (self, h.write p obj')

/-- Operator `operator*() const { return wrapper_->current(); }`. -/
def AnyIterator.deref (h : Heap K V) (self : AnyIterator) : Except UB V :=
  match self.wrapper_ with
  | none => .error .nullDeref
  | some p =>
    match h.read p with
    | .error e => .error e
    | .ok obj => obj.current

/-- Operator `operator->() const { return &wrapper_->current(); }`: a pointer is
identified with the element it designates. -/
def AnyIterator.arrow (h : Heap K V) (self : AnyIterator) : Except UB V :=
  match self.wrapper_ with
  | none => .error .nullDeref
  | some p =>
    match h.read p with
    | .error e => .error e
    | .ok obj => obj.current

/-- Operator `operator==(rhs) const { return wrapper_->equal(rhs.wrapper_.get()); }`. -/
def AnyIterator.eq [DecidableEq K] (h : Heap K V) (self rhs : AnyIterator) :
    Except UB Bool :=
  match self.wrapper_ with
  | none => .error .nullDeref
  | some p =>
    match h.read p with
    | .error e => .error e
    | .ok obj => obj.equal h rhs.wrapper_

/-- Operator `operator!=(rhs) const { return !(*this == rhs); }`. -/
def AnyIterator.ne [DecidableEq K] (h : Heap K V) (self rhs : AnyIterator) :
    Except UB Bool :=
  match AnyIterator.eq h self rhs with
  | .error e => .error e
  | .ok b => .ok (!b)

/-! `Iterable<ValueType>` -/

/-- The erased range: the two members `begin_` and `end_`. -/
structure Iterable where
  begin_ : AnyIterator
  end_ : AnyIterator
  deriving DecidableEq, Repr

/-- Constructor `Iterable(AnyIterator begin, AnyIterator end)
: begin_(std::move(begin)), end_(std::move(end))`. `AnyIterator` declares a
copy constructor and no move constructor, so each `std::move(..)` binds to
`AnyIterator(const AnyIterator&)`: both members are clones of the arguments. -/
def Iterable.ctor (h : Heap K V) (b e : AnyIterator) :
    Except UB (Iterable × Heap K V) :=
  match AnyIterator.copy h b with
  | .error u => .error u
  | .ok (b', h1) =>
    match AnyIterator.copy h1 e with
    | .error u => .error u
    | .ok (e', h2) => .ok (⟨b', e'⟩, h2)

/-- Copy constructor `Iterable(const Iterable& other)
: begin_(other.begin_), end_(other.end_)`. -/
def Iterable.copyCtor (h : Heap K V) (other : Iterable) :
    Except UB (Iterable × Heap K V) :=
  match AnyIterator.copy h other.begin_ with
  | .error u => .error u
  | .ok (b', h1) =>
    match AnyIterator.copy h1 other.end_ with
    | .error u => .error u
    | .ok (e', h2) => .ok (⟨b', e'⟩, h2)

/-- Move constructor `Iterable(Iterable&& other)
: begin_(std::move(other.begin_)), end_(std::move(other.end_))`. The member
initialisers again resolve to `AnyIterator(const AnyIterator&)`, which cannot
modify its argument. The result is the new object, `other` as the constructor
leaves it, and the heap. -/
def Iterable.moveCtor (h : Heap K V) (other : Iterable) :
    Except UB (Iterable × Iterable × Heap K V) :=
  match AnyIterator.copy h other.begin_ with
  | .error u => .error u
  | .ok (b', h1) =>
    match AnyIterator.copy h1 other.end_ with
    | .error u => .error u
    | .ok (e', h2) => .ok (⟨b', e'⟩, other, h2)

/-- Member `begin() const { return begin_; }`: a copy of the member. -/
def Iterable.begin (h : Heap K V) (self : Iterable) :
    Except UB (AnyIterator × Heap K V) :=
  AnyIterator.copy h self.begin_

/-- Member `end() const { return end_; }`: a copy of the member. -/
def Iterable.end' (h : Heap K V) (self : Iterable) :
    Except UB (AnyIterator × Heap K V) :=
  AnyIterator.copy h self.end_

/-! Conversion helpers -/

/-- Function `to_iterable_t<ValueType>(data)`, `ValueType` being stated by the caller.
The braced list builds the two temporaries left to right, each from a freshly
allocated `AnyIterator<ValueType>::Adaptor<decltype(std::begin(data))>`; the
`Iterable` constructor clones them into its members; the temporaries are then
destroyed in reverse order. -/
def to_iterable_t (ValueType : CType) (h : Heap K V) (data : Container K V) :
    Except UB (Iterable × Heap K V) :=
  let (p0, h0) := h.alloc (Adaptor.ofIterator ValueType data.begin)
  let t0 := AnyIterator.ofWrapper (some p0)
  let (p1, h1) := h0.alloc (Adaptor.ofIterator ValueType data.end')
  let t1 := AnyIterator.ofWrapper (some p1)
  match Iterable.ctor h1 t0 t1 with
  | .error u => .error u
  | .ok (r, h2) => .ok (r, t0.destroy (t1.destroy h2))

/-- Function `to_iterable(data)`:
`using ValueType = typename std::decay<decltype(*std::begin(data))>::type;
return to_iterable_t<ValueType>(data);`. -/
def to_iterable (h : Heap K V) (data : Container K V) :
    Except UB (Iterable × Heap K V) :=
  let ValueType := CType.decay data.derefType
  to_iterable_t ValueType h data

/-! Client code using the erased interface only -/

/-- Apply `operator++` to `it` exactly `m` times. -/
def AnyIterator.advance (it : AnyIterator) : Nat → Heap K V → Except UB (Heap K V)
  | 0, h => .ok h
  | m + 1, h =>
    match AnyIterator.inc h it with
    | .error u => .error u
    | .ok (it', h') => it'.advance m h'

/-- The loop `while (it != e) { read *it; ++it; }`, at most `fuel` tests of
the condition. The result is the list of values read and the final heap, or
`none` when the fuel runs out before the loop exits. -/
def traverseLoop [DecidableEq K] :
    Nat → Heap K V → AnyIterator → AnyIterator → Except UB (Option (List V × Heap K V))
  | 0, _, _, _ => .ok none
  | fuel + 1, h, it, e =>
    match AnyIterator.ne h it e with
    | .error u => .error u
    | .ok false => .ok (some ([], h))
    | .ok true =>
      match AnyIterator.deref h it with
      | .error u => .error u
      | .ok v =>
        match AnyIterator.inc h it with
        | .error u => .error u
        | .ok (it', h') =>
          match traverseLoop fuel h' it' e with
          | .error u => .error u
          | .ok none => .ok none
          | .ok (some (vs, h'')) => .ok (some (v :: vs, h''))

/-- Begin-to-end traversal of an `Iterable`:
`it = r.begin(); e = r.end(); while (it != e) { read *it; ++it; }`. -/
def Iterable.traverse [DecidableEq K] (fuel : Nat) (h : Heap K V) (r : Iterable) :
    Except UB (Option (List V × Heap K V)) :=
  match r.begin h with
  | .error u => .error u
  | .ok (it, h1) =>
    match r.end' h1 with
    | .error u => .error u
    | .ok (e, h2) => traverseLoop fuel h2 it e

/-- The native iterator a handle currently holds: `none` for an empty handle or one whose
capability instance is not allocated. -/
def AnyIterator.held (h : Heap K V) (self : AnyIterator) : Option (NativeIter K V) :=
  match self.wrapper_ with
  | none => none
  | some p =>
    match h.read p with
    | .error _ => none
    | .ok obj => some obj.iterator_

/-- The `ValueType` of the `AnyIterator<ValueType>` whose adaptor a handle holds. -/
def AnyIterator.valueType (h : Heap K V) (self : AnyIterator) : Option CType :=
  match self.wrapper_ with
  | none => none
  | some p =>
    match h.read p with
    | .error _ => none
    | .ok obj => some obj.valueType

/-- Concrete iterator types used in the examples. -/
inductive StdIter where
  | vectorConstIterator
  | listConstIterator
  | setConstIterator
  | pointerToConstArray
  deriving DecidableEq, Repr

/-- The type `int`. -/
def CType.int : CType := .named "int"

/-- The empty free store. -/
def Heap.empty : Heap K V := ⟨[]⟩

/-- The sequence `[10, 20, 30]` held in a vector. -/
def vec123 : Container StdIter Nat :=
  ⟨.vectorConstIterator, 100, .lref (.const .int), [10, 20, 30]⟩

/-- Another vector with the same elements. -/
def vec123b : Container StdIter Nat :=
  ⟨.vectorConstIterator, 300, .lref (.const .int), [10, 20, 30]⟩

/-- The same elements held in a tree set. -/
def set123 : Container StdIter Nat :=
  ⟨.setConstIterator, 200, .lref (.const .int), [10, 20, 30]⟩

/-- The range `to_iterable(vec123)` built in the empty store: members in cells 2 and 3. -/
def range123 : Iterable := ⟨⟨some 2⟩, ⟨some 3⟩⟩

/-- The store after `to_iterable(vec123)`: the two temporaries released, the two members live. -/
def heap123 : Heap StdIter Nat :=
  ⟨[none, none, some ⟨.int, vec123.begin⟩, some ⟨.int, vec123.end'⟩]⟩

/-- The store `heap123` after `it = range123.begin(); ++it;`: cell 4 is at position 1. -/
def heapMid : Heap StdIter Nat :=
  ⟨[none, none, some ⟨.int, vec123.begin⟩, some ⟨.int, vec123.end'⟩,
    some ⟨.int, ⟨.vectorConstIterator, 100, [10, 20, 30], 1⟩⟩]⟩

/-- The handle `it` of `heapMid`. -/
def itMid : AnyIterator := ⟨some 4⟩

/-- The range `to_iterable(set123)` built next, in `heap123`: members in cells 6 and 7. -/
def rangeSet123 : Iterable := ⟨⟨some 6⟩, ⟨some 7⟩⟩

/-- The store after `to_iterable(vec123)` followed by `to_iterable(set123)`. -/
def heapVecSet : Heap StdIter Nat :=
  ⟨[none, none, some ⟨.int, vec123.begin⟩, some ⟨.int, vec123.end'⟩,
    none, none, some ⟨.int, set123.begin⟩, some ⟨.int, set123.end'⟩]⟩

/-- The range `to_iterable(vec123b)` built in `heap123`: members in cells 6 and 7. -/
def rangeVec123b : Iterable := ⟨⟨some 6⟩, ⟨some 7⟩⟩

/-- The store after `to_iterable(vec123)` followed by `to_iterable(vec123b)`. -/
def heapVecVec : Heap StdIter Nat :=
  ⟨[none, none, some ⟨.int, vec123.begin⟩, some ⟨.int, vec123.end'⟩,
    none, none, some ⟨.int, vec123b.begin⟩, some ⟨.int, vec123b.end'⟩]⟩

end GenericIterator


namespace GenericIterator

variable {K V : Type}

/-! Heap lemmas -/

theorem Heap.read_alloc_self (h : Heap K V) (o : Adaptor K V) :
    (h.alloc o).2.read h.cells.length = .ok o := by
  simp [Heap.alloc, Heap.read]

theorem Heap.read_alloc_of_ne (h : Heap K V) (o : Adaptor K V) {p : Nat}
    (hp : p ≠ h.cells.length) : (h.alloc o).2.read p = h.read p := by
  unfold Heap.alloc Heap.read
  rcases Nat.lt_or_gt_of_ne hp with hlt | hgt
  · simp [List.getElem?_append_left hlt]
  · have h1 : (h.cells ++ [some o])[p]? = none := by
      apply List.getElem?_eq_none; simp; omega
    have h2 : h.cells[p]? = none := by
      apply List.getElem?_eq_none; omega
    simp [h1, h2]

theorem Heap.lt_of_read_ok {h : Heap K V} {p : Nat} {o : Adaptor K V}
    (hr : h.read p = .ok o) : p < h.cells.length := by
  by_contra hc
  have h2 : h.cells[p]? = none := by
    apply List.getElem?_eq_none; omega
  simp [Heap.read, h2] at hr

theorem Heap.read_write_self {h : Heap K V} {p : Nat} (o : Adaptor K V)
    (hp : p < h.cells.length) : (h.write p o).read p = .ok o := by
  simp [Heap.write, Heap.read, hp]

theorem Heap.read_write_of_ne (h : Heap K V) {p q : Nat} (o : Adaptor K V)
    (hq : q ≠ p) : (h.write p o).read q = h.read q := by
  simp [Heap.write, Heap.read, List.getElem?_set_ne (Ne.symm hq)]

theorem Heap.read_free_of_ne (h : Heap K V) {p q : Nat}
    (hq : q ≠ p) : (h.free p).read q = h.read q := by
  simp [Heap.free, Heap.read, List.getElem?_set_ne (Ne.symm hq)]

theorem Heap.read_free_self (h : Heap K V) (p : Nat) :
    (h.free p).read p = .error .dangling := by
  unfold Heap.free Heap.read
  by_cases hp : p < h.cells.length
  · simp [hp]
  · have : (h.cells.set p none)[p]? = none := by
      apply List.getElem?_eq_none; simp; omega
    simp [this]

theorem Heap.length_write (h : Heap K V) (p : Nat) (o : Adaptor K V) :
    (h.write p o).cells.length = h.cells.length := by
  simp [Heap.write]

/-! Operations on a handle whose capability instance is known -/

theorem AnyIterator.copy_of_read {h : Heap K V} {p : Nat} {o : Adaptor K V}
    (hr : h.read p = .ok o) :
    AnyIterator.copy h ⟨some p⟩ = .ok (⟨some h.cells.length⟩, ⟨h.cells ++ [some o]⟩) := by
  simp [AnyIterator.copy, hr, Adaptor.clone, Adaptor.ofIterator, Heap.alloc]

theorem AnyIterator.deref_of_read {h : Heap K V} {p : Nat} {o : Adaptor K V}
    (hr : h.read p = .ok o) :
    AnyIterator.deref h ⟨some p⟩ = o.iterator_.deref := by
  simp [AnyIterator.deref, hr, Adaptor.current]

theorem AnyIterator.eq_of_read [DecidableEq K] {h : Heap K V} {p q : Nat}
    {x y : Adaptor K V} (hp : h.read p = .ok x) (hq : h.read q = .ok y)
    (hty : y.iterator_.ty = x.iterator_.ty) (hc : x.iterator_.cont = y.iterator_.cont) :
    AnyIterator.eq h ⟨some p⟩ ⟨some q⟩ = .ok (x.iterator_.pos == y.iterator_.pos) := by
  simp [AnyIterator.eq, hp, hq, Adaptor.equal, Adaptor.peerIterator, hty, NativeIter.eq, hc]

theorem AnyIterator.inc_of_read {h : Heap K V} {p : Nat} {T : CType} {t : K} {cid : Nat}
    {s : List V} {k : Nat}
    (hr : h.read p = .ok ⟨T, ⟨t, cid, s, k⟩⟩) (hk : k < s.length) :
    AnyIterator.inc h ⟨some p⟩ = .ok (⟨some p⟩, h.write p ⟨T, ⟨t, cid, s, k + 1⟩⟩) := by
  simp [AnyIterator.inc, hr, Adaptor.next, NativeIter.inc, hk]

theorem AnyIterator.advance_of_read {p : Nat} {T : CType} {t : K} {cid : Nat}
    {s : List V} (m : Nat) :
    ∀ (h : Heap K V) (k : Nat), h.read p = .ok ⟨T, ⟨t, cid, s, k⟩⟩ → k + m ≤ s.length →
      ∃ h', AnyIterator.advance ⟨some p⟩ m h = .ok h' ∧
        h'.read p = .ok ⟨T, ⟨t, cid, s, k + m⟩⟩ ∧
        h'.cells.length = h.cells.length ∧
        ∀ q, q ≠ p → h'.read q = h.read q := by
  induction m with
  | zero =>
    intro h k hr _
    exact ⟨h, rfl, hr, rfl, fun _ _ => rfl⟩
  | succ m ih =>
    intro h k hr hk
    have hlt : k < s.length := by omega
    have hp := Heap.lt_of_read_ok hr
    obtain ⟨h', h1, h2, h3, h4⟩ := ih (h.write p ⟨T, ⟨t, cid, s, k + 1⟩⟩) (k + 1)
      (Heap.read_write_self _ hp) (by omega)
    refine ⟨h', ?_, ?_, ?_, ?_⟩
    · simp [AnyIterator.advance, AnyIterator.inc_of_read hr hlt, h1]
    · rw [h2]; congr 3; omega
    · rw [h3, Heap.length_write]
    · intro q hq
      rw [h4 q hq, Heap.read_write_of_ne _ _ hq]

theorem Heap.read_append (cs r : List (Option (Adaptor K V))) (i : Nat) :
    (⟨cs ++ r⟩ : Heap K V).read (cs.length + i) = (⟨r⟩ : Heap K V).read i := by
  unfold Heap.read
  rw [List.getElem?_append_right (Nat.le_add_right _ _), Nat.add_sub_cancel_left]

/-! The result of the conversion helpers, cell by cell -/

theorem to_iterable_t_eq (T : CType) (h : Heap K V) (data : Container K V) :
    to_iterable_t T h data =
      .ok (⟨⟨some (h.cells.length + 2)⟩, ⟨some (h.cells.length + 3)⟩⟩,
        ⟨h.cells ++ [none, none, some ⟨T, data.begin⟩, some ⟨T, data.end'⟩]⟩) := by
  have r1 : (⟨h.cells ++ [some ⟨T, data.begin⟩] ++ [some ⟨T, data.end'⟩]⟩ : Heap K V).read
      h.cells.length = .ok ⟨T, data.begin⟩ := by
    have := Heap.read_append h.cells [some ⟨T, data.begin⟩, some ⟨T, data.end'⟩] 0
    simpa [Heap.read] using this
  have r2 : (⟨h.cells ++ [some ⟨T, data.begin⟩] ++ [some ⟨T, data.end'⟩] ++ [some ⟨T, data.begin⟩]⟩ :
      Heap K V).read (h.cells.length + 1) = .ok ⟨T, data.end'⟩ := by
    have := Heap.read_append h.cells
      [some ⟨T, data.begin⟩, some ⟨T, data.end'⟩, some ⟨T, data.begin⟩] 1
    simpa [Heap.read] using this
  have c1 := AnyIterator.copy_of_read r1
  have c2 := AnyIterator.copy_of_read r2
  simp only [List.length_append, List.length_singleton] at c1 c2
  simp only [to_iterable_t, Iterable.ctor, AnyIterator.ofWrapper, Heap.alloc, Adaptor.ofIterator,
    List.length_append, List.length_singleton, c1, c2, AnyIterator.destroy, Heap.free]
  simp [List.set_append]

theorem AnyIterator.ne_of_read [DecidableEq K] {h : Heap K V} {p q : Nat}
    {x y : Adaptor K V} (hp : h.read p = .ok x) (hq : h.read q = .ok y)
    (hty : y.iterator_.ty = x.iterator_.ty) (hc : x.iterator_.cont = y.iterator_.cont) :
    AnyIterator.ne h ⟨some p⟩ ⟨some q⟩ = .ok (!(x.iterator_.pos == y.iterator_.pos)) := by
  simp [AnyIterator.ne, AnyIterator.eq_of_read hp hq hty hc]

theorem to_iterable_eq_to_iterable_t (h : Heap K V) (data : Container K V) {T : CType}
    (hT : CType.decay data.derefType = T) : to_iterable h data = to_iterable_t T h data := by
  rw [← hT]; rfl

/-- The loop started at position `k` of `s` against an end handle held in another cell reads
`s.drop k`, leaves the running handle at the end position and touches no other cell. -/
theorem traverseLoop_of_read [DecidableEq K] {p q : Nat} {T : CType} {t : K} {cid : Nat}
    {s : List V} (hpq : q ≠ p)
    (d : Nat) : ∀ (h : Heap K V) (k extra : Nat), k + d = s.length →
      h.read p = .ok ⟨T, ⟨t, cid, s, k⟩⟩ → h.read q = .ok ⟨T, ⟨t, cid, s, s.length⟩⟩ →
      ∃ h', traverseLoop (d + 1 + extra) h ⟨some p⟩ ⟨some q⟩ = .ok (some (s.drop k, h')) ∧
        h'.read p = .ok ⟨T, ⟨t, cid, s, s.length⟩⟩ ∧
        h'.cells.length = h.cells.length ∧
        ∀ r, r ≠ p → h'.read r = h.read r := by
  induction d with
  | zero =>
    intro h k extra hk hp hq
    have hk' : k = s.length := by omega
    subst hk'
    refine ⟨h, ?_, hp, rfl, fun _ _ => rfl⟩
    have hne := AnyIterator.ne_of_read hp hq rfl rfl
    simp only [beq_self_eq_true, Bool.not_true] at hne
    rw [Nat.zero_add, Nat.add_comm 1 extra]
    simp [traverseLoop, hne]
  | succ d ih =>
    intro h k extra hk hp hq
    have hlt : k < s.length := by omega
    have hplt := Heap.lt_of_read_ok hp
    have hne := AnyIterator.ne_of_read hp hq rfl rfl
    have hb : (k == s.length) = false := by simp; omega
    simp only [hb, Bool.not_false] at hne
    have hd : AnyIterator.deref h ⟨some p⟩ = .ok s[k] := by
      rw [AnyIterator.deref_of_read hp]
      simp [NativeIter.deref, hlt]
    have hi := AnyIterator.inc_of_read hp hlt
    obtain ⟨h', e1, e2, e3, e4⟩ := ih (h.write p ⟨T, ⟨t, cid, s, k + 1⟩⟩) (k + 1) extra (by omega)
      (Heap.read_write_self _ hplt) (by rw [Heap.read_write_of_ne _ _ hpq]; exact hq)
    refine ⟨h', ?_, e2, ?_, ?_⟩
    · have hf : d + 1 + 1 + extra = (d + 1 + extra) + 1 := by omega
      rw [hf]
      simp only [traverseLoop, hne, hd, hi, e1]
      rw [List.drop_eq_getElem_cons hlt]
    · rw [e3, Heap.length_write]
    · intro r hr
      rw [e4 r hr, Heap.read_write_of_ne _ _ hr]

/-- The two cells that hold the members of a freshly converted range. -/
theorem to_iterable_t_cells (T : CType) (h : Heap K V) (data : Container K V) :
    (⟨h.cells ++ [none, none, some ⟨T, data.begin⟩, some ⟨T, data.end'⟩]⟩ : Heap K V).read
        (h.cells.length + 2) = .ok ⟨T, data.begin⟩ ∧
    (⟨h.cells ++ [none, none, some ⟨T, data.begin⟩, some ⟨T, data.end'⟩]⟩ : Heap K V).read
        (h.cells.length + 3) = .ok ⟨T, data.end'⟩ := by
  constructor
  · rw [Heap.read_append]; rfl
  · rw [Heap.read_append]; rfl

/-- Traversing a range whose members sit at position `k` and at the end of `s` reads
`s.drop k`; the loop works on copies, so every cell allocated before is left as it was. -/
theorem Iterable.traverse_of_read [DecidableEq K] {h : Heap K V} {pb pe : Nat} {T : CType} {t : K}
    {cid : Nat} {s : List V} {k : Nat} (hk : k ≤ s.length)
    (hb : h.read pb = .ok ⟨T, ⟨t, cid, s, k⟩⟩) (he : h.read pe = .ok ⟨T, ⟨t, cid, s, s.length⟩⟩)
    (extra : Nat) :
    ∃ h', Iterable.traverse (s.length - k + 1 + extra) h ⟨⟨some pb⟩, ⟨some pe⟩⟩
        = .ok (some (s.drop k, h')) ∧
      ∀ r, r < h.cells.length → h'.read r = h.read r := by
  have hpe := Heap.lt_of_read_ok he
  have c1 := AnyIterator.copy_of_read hb
  have he1 : (⟨h.cells ++ [some ⟨T, ⟨t, cid, s, k⟩⟩]⟩ : Heap K V).read pe
      = .ok ⟨T, ⟨t, cid, s, s.length⟩⟩ := by
    have := Heap.read_alloc_of_ne h ⟨T, ⟨t, cid, s, k⟩⟩ (Nat.ne_of_lt hpe)
    simpa [Heap.alloc, he] using this
  have c2 := AnyIterator.copy_of_read he1
  simp only [List.length_append, List.length_singleton] at c2
  have rb : (⟨h.cells ++ [some ⟨T, ⟨t, cid, s, k⟩⟩] ++ [some ⟨T, ⟨t, cid, s, s.length⟩⟩]⟩ : Heap K V).read
      h.cells.length = .ok ⟨T, ⟨t, cid, s, k⟩⟩ := by
    have := Heap.read_append h.cells [some ⟨T, ⟨t, cid, s, k⟩⟩, some ⟨T, ⟨t, cid, s, s.length⟩⟩] 0
    simpa [Heap.read] using this
  have re : (⟨h.cells ++ [some ⟨T, ⟨t, cid, s, k⟩⟩] ++ [some ⟨T, ⟨t, cid, s, s.length⟩⟩]⟩ : Heap K V).read
      (h.cells.length + 1) = .ok ⟨T, ⟨t, cid, s, s.length⟩⟩ := by
    have := Heap.read_append h.cells [some ⟨T, ⟨t, cid, s, k⟩⟩, some ⟨T, ⟨t, cid, s, s.length⟩⟩] 1
    simpa [Heap.read] using this
  obtain ⟨h', e1, _, _, e4⟩ := traverseLoop_of_read (Nat.succ_ne_self h.cells.length)
    (s.length - k) _ k extra (by omega) rb re
  refine ⟨h', ?_, ?_⟩
  · simp only [Iterable.traverse, Iterable.begin, Iterable.end', c1, c2, e1]
  · intro r hr
    rw [e4 r (Nat.ne_of_lt hr)]
    have a1 := Heap.read_alloc_of_ne (⟨h.cells ++ [some ⟨T, ⟨t, cid, s, k⟩⟩]⟩ : Heap K V)
      ⟨T, ⟨t, cid, s, s.length⟩⟩ (p := r) (by simp; omega)
    have a2 := Heap.read_alloc_of_ne h ⟨T, ⟨t, cid, s, k⟩⟩ (Nat.ne_of_lt hr)
    simp only [Heap.alloc] at a1 a2
    rw [a1, a2]

/-- Copy construction from a live handle: the copy owns a fresh cell with the same contents,
and every other cell reads as before. -/
theorem AnyIterator.copy_spec {h : Heap K V} {p : Nat} {o : Adaptor K V}
    (hr : h.read p = .ok o) :
    ∃ h', AnyIterator.copy h ⟨some p⟩ = .ok (⟨some h.cells.length⟩, h') ∧
      h'.read h.cells.length = .ok o ∧
      h'.cells.length = h.cells.length + 1 ∧
      ∀ r, r ≠ h.cells.length → h'.read r = h.read r := by
  refine ⟨_, AnyIterator.copy_of_read hr, ?_, ?_, ?_⟩
  · exact Heap.read_alloc_self h o
  · simp
  · intro r hr'
    exact Heap.read_alloc_of_ne h o hr'

theorem AnyIterator.held_of_read {h : Heap K V} {p : Nat} {o : Adaptor K V}
    (hr : h.read p = .ok o) : AnyIterator.held h ⟨some p⟩ = some o.iterator_ := by
  simp [AnyIterator.held, hr]

theorem AnyIterator.read_of_held {h : Heap K V} {a : AnyIterator} {x : NativeIter K V}
    (ha : a.held h = some x) : ∃ p T, a = ⟨some p⟩ ∧ h.read p = .ok ⟨T, x⟩ := by
  obtain ⟨w⟩ := a
  cases w with
  | none => simp [AnyIterator.held] at ha
  | some p =>
    cases hp : h.read p with
    | error e => simp [AnyIterator.held, hp] at ha
    | ok o =>
      simp only [AnyIterator.held, hp, Option.some.injEq] at ha
      obtain ⟨T, it⟩ := o
      simp only at ha
      exact ⟨p, T, rfl, by rw [hp, ha]⟩

/-- Frame rule for `operator==`: the result depends only on the two cells the operands own. -/
theorem AnyIterator.eq_congr [DecidableEq K] {h h' : Heap K V} {a b : AnyIterator}
    (ha : ∀ p, a.wrapper_ = some p → h'.read p = h.read p)
    (hb : ∀ q, b.wrapper_ = some q → h'.read q = h.read q) :
    AnyIterator.eq h' a b = AnyIterator.eq h a b := by
  obtain ⟨wa⟩ := a
  obtain ⟨wb⟩ := b
  cases wa with
  | none => rfl
  | some p =>
    have hp := ha p rfl
    cases wb with
    | none => simp [AnyIterator.eq, hp, Adaptor.equal, Adaptor.peerIterator]
    | some q =>
      have hq := hb q rfl
      simp [AnyIterator.eq, hp, hq, Adaptor.equal, Adaptor.peerIterator]

/-- Frame rule for `operator*`. -/
theorem AnyIterator.deref_congr {h h' : Heap K V} {a : AnyIterator}
    (ha : ∀ p, a.wrapper_ = some p → h'.read p = h.read p) :
    AnyIterator.deref h' a = AnyIterator.deref h a := by
  obtain ⟨wa⟩ := a
  cases wa with
  | none => rfl
  | some p => simp [AnyIterator.deref, ha p rfl]

/-- Frame rule for the held native iterator. -/
theorem AnyIterator.held_congr {h h' : Heap K V} {a : AnyIterator}
    (ha : ∀ p, a.wrapper_ = some p → h'.read p = h.read p) :
    AnyIterator.held h' a = AnyIterator.held h a := by
  obtain ⟨wa⟩ := a
  cases wa with
  | none => rfl
  | some p => simp [AnyIterator.held, ha p rfl]

/-- A defined comparison has two live operands. -/
theorem AnyIterator.live_of_eq_ok [DecidableEq K] {h : Heap K V} {a b : AnyIterator}
    {res : Bool} (he : AnyIterator.eq h a b = .ok res) :
    ∃ p q x y, a = ⟨some p⟩ ∧ b = ⟨some q⟩ ∧ h.read p = .ok x ∧ h.read q = .ok y := by
  obtain ⟨wa⟩ := a
  obtain ⟨wb⟩ := b
  cases wa with
  | none => simp [AnyIterator.eq] at he
  | some p =>
    cases hp : h.read p with
    | error e => simp [AnyIterator.eq, hp] at he
    | ok x =>
      cases wb with
      | none => simp [AnyIterator.eq, hp, Adaptor.equal, Adaptor.peerIterator] at he
      | some q =>
        cases hq : h.read q with
        | error e => simp [AnyIterator.eq, hp, hq, Adaptor.equal, Adaptor.peerIterator] at he
        | ok y => exact ⟨p, q, x, y, rfl, rfl, hp, hq⟩

theorem Heap.read_append_left (cs r : List (Option (Adaptor K V))) {p : Nat}
    (hp : p < cs.length) : (⟨cs ++ r⟩ : Heap K V).read p = (⟨cs⟩ : Heap K V).read p := by
  unfold Heap.read
  rw [List.getElem?_append_left hp]

/-- Advancing one live handle `m` times within range moves it by `m` and changes neither the
held iterator nor the dereferenced value of any other handle. -/
theorem AnyIterator.advance_others {h : Heap K V} {p : Nat} {T : CType} {t : K} {cid : Nat}
    {s : List V} {k : Nat}
    (m : Nat) (hr : h.read p = .ok ⟨T, ⟨t, cid, s, k⟩⟩) (hm : k + m ≤ s.length) :
    ∃ h', AnyIterator.advance ⟨some p⟩ m h = .ok h' ∧
      h'.read p = .ok ⟨T, ⟨t, cid, s, k + m⟩⟩ ∧
      (∀ q, q ≠ p → h'.read q = h.read q) ∧
      ∀ y : AnyIterator, y ≠ ⟨some p⟩ →
        y.held h' = y.held h ∧ AnyIterator.deref h' y = AnyIterator.deref h y := by
  obtain ⟨h', a1, a2, _, a4⟩ := AnyIterator.advance_of_read m h k hr hm
  refine ⟨h', a1, a2, a4, ?_⟩
  intro y hy
  have hfr : ∀ q, y.wrapper_ = some q → h'.read q = h.read q := by
    intro q hq
    apply a4
    intro hc
    apply hy
    obtain ⟨wy⟩ := y
    simp only at hq
    rw [hq, hc]
  exact ⟨AnyIterator.held_congr hfr, AnyIterator.deref_congr hfr⟩

/-! The stores used in the examples are the ones the code produces -/

theorem heapVecVec_eq : to_iterable heap123 vec123b = .ok (rangeVec123b, heapVecVec) := rfl

theorem heap123_eq : to_iterable Heap.empty vec123 = .ok (range123, heap123) := rfl

theorem heapVecSet_eq : to_iterable heap123 set123 = .ok (rangeSet123, heapVecSet) := rfl

theorem heapMid_eq :
    (match range123.begin heap123 with
      | .ok (it, h) => AnyIterator.inc h it
      | .error u => .error u) = .ok (itMid, heapMid) := rfl

/-- Copy construction of both members of a range whose members are live: the new range owns
the next two cells, which hold what the source members hold, and no older cell changes. -/
theorem Iterable.copy_members {h : Heap K V} {pb pe : Nat} {xb xe : Adaptor K V}
    (hb : h.read pb = .ok xb) (he : h.read pe = .ok xe) :
    ∃ h', Iterable.copyCtor h ⟨⟨some pb⟩, ⟨some pe⟩⟩
        = .ok (⟨⟨some h.cells.length⟩, ⟨some (h.cells.length + 1)⟩⟩, h') ∧
      h'.read h.cells.length = .ok xb ∧
      h'.read (h.cells.length + 1) = .ok xe ∧
      ∀ r, r < h.cells.length → h'.read r = h.read r := by
  have hbl := Heap.lt_of_read_ok hb
  have hel := Heap.lt_of_read_ok he
  obtain ⟨h1, c1, b1, l1, f1⟩ := AnyIterator.copy_spec hb
  have he1 : h1.read pe = .ok xe := by
    rw [f1 _ (Nat.ne_of_lt hel)]; exact he
  obtain ⟨h2, c2, b2, l2, f2⟩ := AnyIterator.copy_spec he1
  rw [l1] at c2 b2 l2 f2
  refine ⟨h2, ?_, ?_, b2, ?_⟩
  · simp only [Iterable.copyCtor, c1, c2]
  · rw [f2 _ (by omega)]; exact b1
  · intro r hr
    rw [f2 _ (by omega), f1 _ (by omega)]

/-- With fewer tests of the condition than remaining elements plus one, the loop has not
left yet: it does not stop early. -/
theorem traverseLoop_out_of_fuel [DecidableEq K] {p q : Nat} {T : CType} {t : K} {cid : Nat}
    {s : List V}
    (hpq : q ≠ p) (fuel : Nat) : ∀ (h : Heap K V) (k : Nat), k + fuel ≤ s.length →
      h.read p = .ok ⟨T, ⟨t, cid, s, k⟩⟩ → h.read q = .ok ⟨T, ⟨t, cid, s, s.length⟩⟩ →
      traverseLoop fuel h ⟨some p⟩ ⟨some q⟩ = .ok none := by
  induction fuel with
  | zero =>
    intro h k _ _ _
    rfl
  | succ fuel ih =>
    intro h k hk hp hq
    have hlt : k < s.length := by omega
    have hplt := Heap.lt_of_read_ok hp
    have hne := AnyIterator.ne_of_read hp hq rfl rfl
    have hb : (k == s.length) = false := by simp; omega
    simp only [hb, Bool.not_false] at hne
    have hd : AnyIterator.deref h ⟨some p⟩ = .ok s[k] := by
      rw [AnyIterator.deref_of_read hp]
      simp [NativeIter.deref, hlt]
    have hi := AnyIterator.inc_of_read hp hlt
    have e1 := ih (h.write p ⟨T, ⟨t, cid, s, k + 1⟩⟩) (k + 1) (by omega)
      (Heap.read_write_self _ hplt) (by rw [Heap.read_write_of_ne _ _ hpq]; exact hq)
    simp only [traverseLoop, hne, hd, hi, e1]

/-- Traversal of a range over `s` from its first position needs more than `s.length` tests. -/
theorem Iterable.traverse_out_of_fuel [DecidableEq K] {h : Heap K V} {pb pe : Nat} {T : CType} {t : K}
    {cid : Nat} {s : List V} (hb : h.read pb = .ok ⟨T, ⟨t, cid, s, 0⟩⟩)
    (he : h.read pe = .ok ⟨T, ⟨t, cid, s, s.length⟩⟩) (fuel : Nat) (hf : fuel ≤ s.length) :
    Iterable.traverse fuel h ⟨⟨some pb⟩, ⟨some pe⟩⟩ = .ok none := by
  have hpe := Heap.lt_of_read_ok he
  obtain ⟨h1, c1, b1, l1, f1⟩ := AnyIterator.copy_spec hb
  have he1 : h1.read pe = .ok ⟨T, ⟨t, cid, s, s.length⟩⟩ := by
    rw [f1 _ (Nat.ne_of_lt hpe)]; exact he
  obtain ⟨h2, c2, b2, l2, f2⟩ := AnyIterator.copy_spec he1
  rw [l1] at c2 b2 l2 f2
  have rb : h2.read h.cells.length = .ok ⟨T, ⟨t, cid, s, 0⟩⟩ := by
    rw [f2 _ (by omega)]; exact b1
  have e := traverseLoop_out_of_fuel (Nat.succ_ne_self h.cells.length) fuel h2 0
    (by omega) rb b2
  simp only [Iterable.traverse, Iterable.begin, Iterable.end', c1, c2, e]

/-- The state after `r = to_iterable(data); b = r.begin(); e = r.end();`: the two copies own
the next two cells and hold the native begin and end of `data`; the members are untouched. -/
theorem to_iterable_begin_end (T : CType) (h : Heap K V) (data : Container K V) :
    ∃ h2 h3,
      Iterable.begin (⟨h.cells ++ [none, none, some ⟨T, data.begin⟩, some ⟨T, data.end'⟩]⟩ : Heap K V)
        ⟨⟨some (h.cells.length + 2)⟩, ⟨some (h.cells.length + 3)⟩⟩
        = .ok (⟨some (h.cells.length + 4)⟩, h2) ∧
      Iterable.end' h2 ⟨⟨some (h.cells.length + 2)⟩, ⟨some (h.cells.length + 3)⟩⟩
        = .ok (⟨some (h.cells.length + 5)⟩, h3) ∧
      h3.read (h.cells.length + 4) = .ok ⟨T, data.begin⟩ ∧
      h3.read (h.cells.length + 5) = .ok ⟨T, data.end'⟩ ∧
      h3.read (h.cells.length + 2) = .ok ⟨T, data.begin⟩ ∧
      h3.read (h.cells.length + 3) = .ok ⟨T, data.end'⟩ := by
  obtain ⟨rb, re⟩ := to_iterable_t_cells T h data
  obtain ⟨h2, c1, b1, l1, f1⟩ := AnyIterator.copy_spec rb
  simp only [List.length_append, List.length_cons, List.length_nil, Nat.zero_add,
    Nat.reduceAdd] at c1 b1 l1 f1
  have re2 : h2.read (h.cells.length + 3) = .ok ⟨T, data.end'⟩ := by
    rw [f1 _ (by omega)]; exact re
  obtain ⟨h3, c2, b2, l2, f2⟩ := AnyIterator.copy_spec re2
  rw [l1] at c2 b2 l2 f2
  refine ⟨h2, h3, c1, c2, ?_, b2, ?_, ?_⟩
  · rw [f2 _ (by omega)]; exact b1
  · rw [f2 _ (by omega), f1 _ (by omega)]; exact rb
  · rw [f2 _ (by omega)]; exact re2

/-- C2: for every container of size `n`, with `b` a copy of `to_iterable(C).begin()` and `e` a
copy of `to_iterable(C).end()`, `n` applications of `operator++` to `b` are all defined and
afterwards `b == e` is `true`. -/
theorem C2_begin_advanced_n_equals_end [DecidableEq K] (h : Heap K V) (data : Container K V) :
    ∃ r h1 b h2 e h3 h4,
      to_iterable h data = .ok (r, h1) ∧
      r.begin h1 = .ok (b, h2) ∧
      r.end' h2 = .ok (e, h3) ∧
      b.advance data.elems.length h3 = .ok h4 ∧
      AnyIterator.eq h4 b e = .ok true := by
  obtain ⟨T, hT⟩ : ∃ T, CType.decay data.derefType = T := ⟨_, rfl⟩
  have hto := fun (g : Heap K V) => to_iterable_eq_to_iterable_t g data hT
  obtain ⟨h2, h3, c1, c2, rb3, re3, _, _⟩ := to_iterable_begin_end T h data
  obtain ⟨h4, a1, a2, _, a4⟩ := AnyIterator.advance_of_read data.elems.length h3 0 rb3
    (by omega)
  have re4 : h4.read (h.cells.length + 5) = .ok ⟨T, data.end'⟩ := by
    rw [a4 _ (by omega)]
    exact re3
  refine ⟨_, _, ⟨some (h.cells.length + 4)⟩, h2, ⟨some (h.cells.length + 5)⟩, h3, h4,
    (hto h).trans (to_iterable_t_eq T h data), c1, c2, a1, ?_⟩
  have := AnyIterator.eq_of_read a2 re4 rfl rfl
  simpa [Container.end'] using this

/-- C3: clone independence. For a live handle `a` at a position `k` that holds an element,
copy-constructing `c` from `a` and applying `operator++` to `c` any number `m` of times within
range succeeds, moves `c` to `k + m`, and leaves `a` where it was: `*a` is still the element
at `k`, and every comparison of `a` that was defined before the copy was made, and every
comparison of `a` with a handle other than `c` that was defined before `c` was advanced, has
the same result afterwards. (The copy itself has moved: `a == c` now holds only if `m = 0`.) -/
theorem C3_clone_independence [DecidableEq K] (h : Heap K V) (a : AnyIterator) (t : K)
    (cid : Nat) (s : List V) (k m : Nat) (ha : a.held h = some ⟨t, cid, s, k⟩) (hk : k < s.length)
    (hm : k + m ≤ s.length) :
    ∃ c h1 h2, AnyIterator.copy h a = .ok (c, h1) ∧ c.advance m h1 = .ok h2 ∧
      c.held h2 = some ⟨t, cid, s, k + m⟩ ∧
      a.held h2 = some ⟨t, cid, s, k⟩ ∧
      AnyIterator.deref h2 a = .ok s[k] ∧
      (∀ b res, AnyIterator.eq h a b = .ok res → AnyIterator.eq h2 a b = .ok res) ∧
      (∀ b res, b ≠ c → AnyIterator.eq h1 a b = .ok res → AnyIterator.eq h2 a b = .ok res) ∧
      AnyIterator.eq h2 a c = .ok (k == k + m) := by
  obtain ⟨p, T, rfl, hp⟩ := AnyIterator.read_of_held ha
  have hpl := Heap.lt_of_read_ok hp
  obtain ⟨h1, c1, b1, l1, f1⟩ := AnyIterator.copy_spec hp
  obtain ⟨h2, a1, a2, _, a4⟩ := AnyIterator.advance_of_read m h1 k b1 hm
  have hp2 : h2.read p = .ok ⟨T, ⟨t, cid, s, k⟩⟩ := by
    rw [a4 p (Nat.ne_of_lt hpl), f1 p (Nat.ne_of_lt hpl)]; exact hp
  refine ⟨⟨some h.cells.length⟩, h1, h2, c1, a1, AnyIterator.held_of_read a2,
    AnyIterator.held_of_read hp2, ?_, ?_, ?_, ?_⟩
  · rw [AnyIterator.deref_of_read hp2]
    simp [NativeIter.deref, hk]
  · intro b res he
    obtain ⟨p', q, x, y, hp', hq', _, hy⟩ := AnyIterator.live_of_eq_ok he
    subst hq'
    have hql := Heap.lt_of_read_ok hy
    rw [← he]
    apply AnyIterator.eq_congr
    · intro r hr
      cases hr
      rw [a4 p (Nat.ne_of_lt hpl), f1 p (Nat.ne_of_lt hpl)]
    · intro r hr
      cases hr
      rw [a4 q (Nat.ne_of_lt hql), f1 q (Nat.ne_of_lt hql)]
  · intro b res hb he
    rw [← he]
    apply AnyIterator.eq_congr
    · intro p' hp'
      cases hp'
      exact a4 p (Nat.ne_of_lt hpl)
    · intro q hq
      apply a4
      intro hc
      apply hb
      obtain ⟨wb⟩ := b
      simp only at hq
      rw [hq, hc]
  · exact AnyIterator.eq_of_read hp2 a2 rfl rfl

/-- C3 at a concrete input: the handle at position 1 of `[10, 20, 30]` is copied and the
copy advanced twice, to the end. -/
theorem C3_clone_independence_witness :
    (itMid.held heapMid = some ⟨.vectorConstIterator, 100, [10, 20, 30], 1⟩ ∧
      1 < [10, 20, 30].length ∧ 1 + 2 ≤ [10, 20, 30].length) ∧
    ∃ c h1 h2, AnyIterator.copy heapMid itMid = .ok (c, h1) ∧
      c.advance 2 h1 = .ok h2 ∧
      c.held h2 = some ⟨.vectorConstIterator, 100, [10, 20, 30], 1 + 2⟩ ∧
      itMid.held h2 = some ⟨.vectorConstIterator, 100, [10, 20, 30], 1⟩ ∧
      AnyIterator.deref h2 itMid = .ok 20 ∧
      (∀ b res, AnyIterator.eq heapMid itMid b = .ok res →
        AnyIterator.eq h2 itMid b = .ok res) ∧
      (∀ b res, b ≠ c → AnyIterator.eq h1 itMid b = .ok res →
        AnyIterator.eq h2 itMid b = .ok res) ∧
      AnyIterator.eq h2 itMid c = .ok (1 == 1 + 2) :=
  ⟨⟨rfl, by decide, by decide⟩,
    C3_clone_independence heapMid itMid .vectorConstIterator 100 [10, 20, 30] 1 2 rfl
      (by decide) (by decide)⟩

/-- C4: for every empty container, `r = to_iterable(C)` has `r.begin() == r.end()` true and
`r.begin() != r.end()` false; a begin-to-end traversal leaves the loop at the first test,
with no value read and no handle advanced (the store is the one the two copies left). -/
theorem C4_empty_container_begin_eq_end [DecidableEq K] (h : Heap K V) (ty : K)
    (addr : Nat) (derefType : CType) :
    ∃ r h1 b h2 e h3,
      to_iterable h (⟨ty, addr, derefType, []⟩ : Container K V) = .ok (r, h1) ∧
      r.begin h1 = .ok (b, h2) ∧
      r.end' h2 = .ok (e, h3) ∧
      AnyIterator.eq h3 b e = .ok true ∧
      AnyIterator.ne h3 b e = .ok false ∧
      ∀ fuel, Iterable.traverse (fuel + 1) h1 r = .ok (some ([], h3)) := by
  obtain ⟨h2, h3, c1, c2, rb3, re3, _, _⟩ :=
    to_iterable_begin_end (CType.decay derefType) h (⟨ty, addr, derefType, []⟩ : Container K V)
  have heq := AnyIterator.eq_of_read rb3 re3 rfl rfl
  have hne := AnyIterator.ne_of_read rb3 re3 rfl rfl
  simp only [Container.begin, Container.end', List.length_nil, beq_self_eq_true,
    Bool.not_true] at heq hne
  refine ⟨_, _, ⟨some (h.cells.length + 4)⟩, h2, ⟨some (h.cells.length + 5)⟩, h3,
    to_iterable_t_eq _ h _, c1, c2, heq, hne, ?_⟩
  intro fuel
  simp only [Iterable.traverse, c1, c2, traverseLoop, hne]

/-- C5: converting one container twice gives two ranges that each traverse to the container's
element list (from the same store, and also one after the other); and with `it1 = r1.begin()`
and `it2 = r2.begin()`, advancing `it1` any number `m ≤ n` of times changes neither the
position nor the dereferenced value of `it2` (wherever `it2` stands, `j ≤ n`) nor the members
of `r2`, and the same with the roles of the two ranges exchanged. -/
theorem C5_two_conversions_independent [DecidableEq K] (h : Heap K V) (data : Container K V)
    (j m : Nat) (hj : j ≤ data.elems.length) (hm : m ≤ data.elems.length) :
    ∃ r1 h1 r2 h2,
      to_iterable h data = .ok (r1, h1) ∧ to_iterable h1 data = .ok (r2, h2) ∧
      (∀ extra, ∃ h3 h4 h5,
        Iterable.traverse (data.elems.length + 1 + extra) h2 r1
          = .ok (some (data.elems, h3)) ∧
        Iterable.traverse (data.elems.length + 1 + extra) h2 r2
          = .ok (some (data.elems, h4)) ∧
        Iterable.traverse (data.elems.length + 1 + extra) h3 r2
          = .ok (some (data.elems, h5))) ∧
      ∃ it1 h3 it2 h4, r1.begin h2 = .ok (it1, h3) ∧ r2.begin h3 = .ok (it2, h4) ∧
        (∃ h5 h6, it2.advance j h4 = .ok h5 ∧ it1.advance m h5 = .ok h6 ∧
          it2.held h5 = some ⟨data.iterType, data.addr, data.elems, j⟩ ∧
          it2.held h6 = some ⟨data.iterType, data.addr, data.elems, j⟩ ∧
          AnyIterator.deref h6 it2 = AnyIterator.deref h5 it2 ∧
          r2.begin_.held h6 = some data.begin ∧ r2.end_.held h6 = some data.end') ∧
        (∃ h5 h6, it1.advance j h4 = .ok h5 ∧ it2.advance m h5 = .ok h6 ∧
          it1.held h5 = some ⟨data.iterType, data.addr, data.elems, j⟩ ∧
          it1.held h6 = some ⟨data.iterType, data.addr, data.elems, j⟩ ∧
          AnyIterator.deref h6 it1 = AnyIterator.deref h5 it1 ∧
          r1.begin_.held h6 = some data.begin ∧ r1.end_.held h6 = some data.end') := by
  obtain ⟨T, hT⟩ : ∃ T, CType.decay data.derefType = T := ⟨_, rfl⟩
  have hto := fun (g : Heap K V) => to_iterable_eq_to_iterable_t g data hT
  -- the store after the two conversions
  obtain ⟨rb2, re2⟩ := to_iterable_t_cells T
    (⟨h.cells ++ [none, none, some ⟨T, data.begin⟩, some ⟨T, data.end'⟩]⟩ : Heap K V) data
  have e2 := (hto _).trans (to_iterable_t_eq T
    (⟨h.cells ++ [none, none, some ⟨T, data.begin⟩, some ⟨T, data.end'⟩]⟩ : Heap K V) data)
  obtain ⟨rb1, re1⟩ := to_iterable_t_cells T h data
  simp only [List.length_append, List.length_cons, List.length_nil, Nat.zero_add,
    Nat.reduceAdd, Nat.add_assoc] at rb2 re2 e2
  generalize hh2 : (⟨(h.cells ++ [none, none, some ⟨T, data.begin⟩, some ⟨T, data.end'⟩]) ++
    [none, none, some ⟨T, data.begin⟩, some ⟨T, data.end'⟩]⟩ : Heap K V) = h2 at rb2 re2 e2
  have l2 : h2.cells.length = h.cells.length + 8 := by rw [← hh2]; simp
  have rb1' : h2.read (h.cells.length + 2) = .ok ⟨T, data.begin⟩ := by
    rw [← hh2, Heap.read_append_left _ _ (by simp)]; exact rb1
  have re1' : h2.read (h.cells.length + 3) = .ok ⟨T, data.end'⟩ := by
    rw [← hh2, Heap.read_append_left _ _ (by simp)]; exact re1
  refine ⟨_, _, _, h2, (hto h).trans (to_iterable_t_eq T h data), e2, ?_, ?_⟩
  · intro extra
    obtain ⟨h3, t1, f1⟩ := Iterable.traverse_of_read (Nat.zero_le _) rb1' re1' extra
    obtain ⟨h4, t2, _⟩ := Iterable.traverse_of_read (Nat.zero_le _) rb2 re2 extra
    have rb3 : h3.read (h.cells.length + 6) = .ok ⟨T, data.begin⟩ := by
      rw [f1 _ (by omega)]; exact rb2
    have re3 : h3.read (h.cells.length + 7) = .ok ⟨T, data.end'⟩ := by
      rw [f1 _ (by omega)]; exact re2
    obtain ⟨h5, t3, _⟩ := Iterable.traverse_of_read (Nat.zero_le _) rb3 re3 extra
    exact ⟨h3, h4, h5, t1, t2, t3⟩
  · obtain ⟨h3, c1, b1, l3, f3⟩ := AnyIterator.copy_spec rb1'
    have rb3 : h3.read (h.cells.length + 6) = .ok ⟨T, data.begin⟩ := by
      rw [f3 _ (by omega)]; exact rb2
    obtain ⟨h4, c2, b2, l4, f4⟩ := AnyIterator.copy_spec rb3
    rw [l2] at c1 b1 l3 f3
    rw [l3] at c2 b2 l4 f4
    have b1' : h4.read (h.cells.length + 8) = .ok ⟨T, data.begin⟩ := by
      rw [f4 _ (by omega)]; exact b1
    have m1 : h4.read (h.cells.length + 2) = .ok ⟨T, data.begin⟩ := by
      rw [f4 _ (by omega), f3 _ (by omega)]; exact rb1'
    have m2 : h4.read (h.cells.length + 3) = .ok ⟨T, data.end'⟩ := by
      rw [f4 _ (by omega), f3 _ (by omega)]; exact re1'
    have m3 : h4.read (h.cells.length + 6) = .ok ⟨T, data.begin⟩ := by
      rw [f4 _ (by omega)]; exact rb3
    have m4 : h4.read (h.cells.length + 7) = .ok ⟨T, data.end'⟩ := by
      rw [f4 _ (by omega), f3 _ (by omega)]; exact re2
    refine ⟨⟨some (h.cells.length + 8)⟩, h3, ⟨some (h.cells.length + 8 + 1)⟩, h4, c1, c2,
      ?_, ?_⟩
    · obtain ⟨h5, a1, a2, a3, _⟩ := AnyIterator.advance_others j b2 (by simpa using hj)
      have b5 : h5.read (h.cells.length + 8) = .ok ⟨T, data.begin⟩ := by
        rw [a3 _ (by omega)]; exact b1'
      obtain ⟨h6, a4, _, a6, a7⟩ := AnyIterator.advance_others m b5 (by simpa using hm)
      have hj5 := AnyIterator.held_of_read a2
      simp only [Container.begin, Nat.zero_add] at hj5
      refine ⟨h5, h6, a1, a4, hj5, ?_, ?_, ?_, ?_⟩
      · rw [(a7 _ (by simp)).1]; exact hj5
      · exact (a7 _ (by simp)).2
      · have : h6.read (h.cells.length + 6) = .ok ⟨T, data.begin⟩ := by
          rw [a6 _ (by omega), a3 _ (by omega)]; exact m3
        exact AnyIterator.held_of_read this
      · have : h6.read (h.cells.length + 7) = .ok ⟨T, data.end'⟩ := by
          rw [a6 _ (by omega), a3 _ (by omega)]; exact m4
        exact AnyIterator.held_of_read this
    · obtain ⟨h5, a1, a2, a3, _⟩ := AnyIterator.advance_others j b1' (by simpa using hj)
      have b5 : h5.read (h.cells.length + 8 + 1) = .ok ⟨T, data.begin⟩ := by
        rw [a3 _ (by omega)]; exact b2
      obtain ⟨h6, a4, _, a6, a7⟩ := AnyIterator.advance_others m b5 (by simpa using hm)
      have hj5 := AnyIterator.held_of_read a2
      simp only [Container.begin, Nat.zero_add] at hj5
      refine ⟨h5, h6, a1, a4, hj5, ?_, ?_, ?_, ?_⟩
      · rw [(a7 _ (by simp)).1]; exact hj5
      · exact (a7 _ (by simp)).2
      · have : h6.read (h.cells.length + 2) = .ok ⟨T, data.begin⟩ := by
          rw [a6 _ (by omega), a3 _ (by omega)]; exact m1
        exact AnyIterator.held_of_read this
      · have : h6.read (h.cells.length + 3) = .ok ⟨T, data.end'⟩ := by
          rw [a6 _ (by omega), a3 _ (by omega)]; exact m2
        exact AnyIterator.held_of_read this

/-- C5 at a concrete input: `vec123` converted twice in the empty store, `j = 1`, `m = 2`. -/
theorem C5_two_conversions_independent_witness :
    (1 ≤ vec123.elems.length ∧ 2 ≤ vec123.elems.length) ∧
    ∃ r1 h1 r2 h2,
      to_iterable Heap.empty vec123 = .ok (r1, h1) ∧ to_iterable h1 vec123 = .ok (r2, h2) ∧
      (∀ extra, ∃ h3 h4 h5,
        Iterable.traverse (vec123.elems.length + 1 + extra) h2 r1
          = .ok (some (vec123.elems, h3)) ∧
        Iterable.traverse (vec123.elems.length + 1 + extra) h2 r2
          = .ok (some (vec123.elems, h4)) ∧
        Iterable.traverse (vec123.elems.length + 1 + extra) h3 r2
          = .ok (some (vec123.elems, h5))) ∧
      ∃ it1 h3 it2 h4, r1.begin h2 = .ok (it1, h3) ∧ r2.begin h3 = .ok (it2, h4) ∧
        (∃ h5 h6, it2.advance 1 h4 = .ok h5 ∧ it1.advance 2 h5 = .ok h6 ∧
          it2.held h5 = some ⟨vec123.iterType, vec123.addr, vec123.elems, 1⟩ ∧
          it2.held h6 = some ⟨vec123.iterType, vec123.addr, vec123.elems, 1⟩ ∧
          AnyIterator.deref h6 it2 = AnyIterator.deref h5 it2 ∧
          r2.begin_.held h6 = some vec123.begin ∧ r2.end_.held h6 = some vec123.end') ∧
        (∃ h5 h6, it1.advance 1 h4 = .ok h5 ∧ it2.advance 2 h5 = .ok h6 ∧
          it1.held h5 = some ⟨vec123.iterType, vec123.addr, vec123.elems, 1⟩ ∧
          it1.held h6 = some ⟨vec123.iterType, vec123.addr, vec123.elems, 1⟩ ∧
          AnyIterator.deref h6 it1 = AnyIterator.deref h5 it1 ∧
          r1.begin_.held h6 = some vec123.begin ∧ r1.end_.held h6 = some vec123.end') :=
  ⟨⟨by decide, by decide⟩,
    C5_two_conversions_independent Heap.empty vec123 1 2 (by decide) (by decide)⟩

/-- C6: a clone taken before advancing stays at the old position. For a live handle `a` at a
position `k` that holds an element, right after `c` is copy-constructed from `a` we have
`c == a` and `*c` equal to `*a`; after `a` is advanced `m` times within range, `c` is still at
`k`, `*c` is still the element at `k`, and `c` compares equal to every begin iterator of the
same sequence once that one has been advanced exactly `k` times. -/
theorem C6_clone_stays_at_old_position [DecidableEq K] (h : Heap K V) (a : AnyIterator)
    (t : K) (cid : Nat) (s : List V) (k m : Nat) (ha : a.held h = some ⟨t, cid, s, k⟩)
    (hk : k < s.length)
    (hm : k + m ≤ s.length) :
    ∃ c h1 h2, AnyIterator.copy h a = .ok (c, h1) ∧
      AnyIterator.eq h1 c a = .ok true ∧
      AnyIterator.deref h1 c = AnyIterator.deref h1 a ∧
      AnyIterator.deref h1 c = .ok s[k] ∧
      a.advance m h1 = .ok h2 ∧
      a.held h2 = some ⟨t, cid, s, k + m⟩ ∧
      c.held h2 = some ⟨t, cid, s, k⟩ ∧
      AnyIterator.deref h2 c = .ok s[k] ∧
      ∀ f : AnyIterator, f.held h2 = some ⟨t, cid, s, 0⟩ →
        ∃ h3, f.advance k h2 = .ok h3 ∧ AnyIterator.eq h3 c f = .ok true := by
  obtain ⟨p, T, rfl, hp⟩ := AnyIterator.read_of_held ha
  have hpl := Heap.lt_of_read_ok hp
  obtain ⟨h1, c1, b1, l1, f1⟩ := AnyIterator.copy_spec hp
  have hp1 : h1.read p = .ok ⟨T, ⟨t, cid, s, k⟩⟩ := by
    rw [f1 p (Nat.ne_of_lt hpl)]; exact hp
  obtain ⟨h2, a1, a2, a3, _⟩ := AnyIterator.advance_others m hp1 hm
  have hc2 : h2.read h.cells.length = .ok ⟨T, ⟨t, cid, s, k⟩⟩ := by
    rw [a3 _ (Nat.ne_of_gt hpl)]; exact b1
  have hsk : NativeIter.deref (⟨t, cid, s, k⟩ : NativeIter K V) = .ok s[k] := by
    simp [NativeIter.deref, hk]
  refine ⟨⟨some h.cells.length⟩, h1, h2, c1, ?_, ?_, ?_, a1, AnyIterator.held_of_read a2,
    AnyIterator.held_of_read hc2, ?_, ?_⟩
  · have := AnyIterator.eq_of_read b1 hp1 rfl rfl
    simpa using this
  · rw [AnyIterator.deref_of_read b1, AnyIterator.deref_of_read hp1]
  · rw [AnyIterator.deref_of_read b1]; exact hsk
  · rw [AnyIterator.deref_of_read hc2]; exact hsk
  · intro f hf
    obtain ⟨q, Tq, rfl, hq⟩ := AnyIterator.read_of_held hf
    obtain ⟨h3, g1, g2, g3, _⟩ := AnyIterator.advance_others k hq (by omega)
    refine ⟨h3, g1, ?_⟩
    by_cases hqc : q = h.cells.length
    · subst hqc
      rw [hq] at hc2
      have hk0 : k = 0 := by
        have := congrArg (fun r => match r with
          | Except.ok (o : Adaptor K V) => o.iterator_.pos
          | Except.error _ => 0) hc2
        simpa using this.symm
      subst hk0
      have := AnyIterator.eq_of_read g2 g2 rfl rfl
      simpa using this
    · have hc3 : h3.read h.cells.length = .ok ⟨T, ⟨t, cid, s, k⟩⟩ := by
        rw [g3 _ (Ne.symm hqc)]; exact hc2
      have := AnyIterator.eq_of_read hc3 g2 rfl rfl
      simpa using this

/-- C6 at a concrete input: the handle at position 1 of `[10, 20, 30]` is copied and then
advanced twice; the copy still reads 20 and equals a begin iterator advanced once. -/
theorem C6_clone_stays_at_old_position_witness :
    (itMid.held heapMid = some ⟨.vectorConstIterator, 100, [10, 20, 30], 1⟩ ∧
      1 < [10, 20, 30].length ∧ 1 + 2 ≤ [10, 20, 30].length) ∧
    ∃ c h1 h2, AnyIterator.copy heapMid itMid = .ok (c, h1) ∧
      AnyIterator.eq h1 c itMid = .ok true ∧
      AnyIterator.deref h1 c = AnyIterator.deref h1 itMid ∧
      AnyIterator.deref h1 c = .ok 20 ∧
      itMid.advance 2 h1 = .ok h2 ∧
      itMid.held h2 = some ⟨.vectorConstIterator, 100, [10, 20, 30], 1 + 2⟩ ∧
      c.held h2 = some ⟨.vectorConstIterator, 100, [10, 20, 30], 1⟩ ∧
      AnyIterator.deref h2 c = .ok 20 ∧
      ∀ f : AnyIterator, f.held h2 = some ⟨.vectorConstIterator, 100, [10, 20, 30], 0⟩ →
        ∃ h3, f.advance 1 h2 = .ok h3 ∧ AnyIterator.eq h3 c f = .ok true :=
  ⟨⟨rfl, by decide, by decide⟩,
    C6_clone_stays_at_old_position heapMid itMid .vectorConstIterator 100 [10, 20, 30]
      1 2 rfl (by decide) (by decide)⟩

/-- C7: on an empty (default-constructed) `AnyIterator`, `operator*`, `operator->` and
`operator++` take the error branch (a null pointer is dereferenced); `operator==` and
`operator!=` take the error branch whenever an operand is empty, on the left and on the right,
whatever the other operand is. So two empty handles never compare to a defined `true`, and no
handle compared with an empty one yields a defined `false`. -/
theorem C7_empty_iterator_operations_undefined [DecidableEq K] (h : Heap K V)
    (x : AnyIterator) :
    AnyIterator.deref h AnyIterator.empty = .error .nullDeref ∧
    AnyIterator.arrow h AnyIterator.empty = .error .nullDeref ∧
    AnyIterator.inc h AnyIterator.empty = .error .nullDeref ∧
    AnyIterator.eq h AnyIterator.empty x = .error .nullDeref ∧
    AnyIterator.ne h AnyIterator.empty x = .error .nullDeref ∧
    (∃ u, AnyIterator.eq h x AnyIterator.empty = .error u) ∧
    (∃ u, AnyIterator.ne h x AnyIterator.empty = .error u) ∧
    (∀ res, AnyIterator.eq h AnyIterator.empty AnyIterator.empty ≠ .ok res) ∧
    (∀ res, AnyIterator.eq h x AnyIterator.empty ≠ .ok res) := by
  have hx : ∃ u, AnyIterator.eq h x AnyIterator.empty = .error u := by
    obtain ⟨wx⟩ := x
    cases wx with
    | none => exact ⟨_, rfl⟩
    | some p =>
      cases hp : h.read p with
      | error e => exact ⟨e, by simp [AnyIterator.eq, hp]⟩
      | ok o =>
        exact ⟨.nullDeref, by
          simp [AnyIterator.eq, hp, AnyIterator.empty, Adaptor.equal, Adaptor.peerIterator]⟩
  refine ⟨rfl, rfl, rfl, rfl, rfl, hx, ?_, ?_, ?_⟩
  · obtain ⟨u, hu⟩ := hx
    exact ⟨u, by simp [AnyIterator.ne, hu]⟩
  · intro res hc
    simp [AnyIterator.eq, AnyIterator.empty] at hc
  · intro res hc
    obtain ⟨u, hu⟩ := hx
    rw [hu] at hc
    cases hc

/-- C8: `operator==` (and with it `operator!=`) on two live handles whose adaptors wrap
different concrete native iterator types takes the error branch of the unchecked cast instead
of returning `false`; so does `Adaptor::assign` with such a peer. -/
theorem C8_cross_type_comparison_undefined [DecidableEq K] (h : Heap K V)
    (a b : AnyIterator) (x y : NativeIter K V) (ValueType : CType) (ha : a.held h = some x)
    (hb : b.held h = some y) (hty : x.ty ≠ y.ty) :
    AnyIterator.eq h a b = .error .badCast ∧
    AnyIterator.ne h a b = .error .badCast ∧
    Adaptor.equal ⟨ValueType, x⟩ h b.wrapper_ = .error .badCast ∧
    Adaptor.assign ⟨ValueType, x⟩ h b.wrapper_ = .error .badCast := by
  obtain ⟨p, T, rfl, hp⟩ := AnyIterator.read_of_held ha
  obtain ⟨q, Tq, rfl, hq⟩ := AnyIterator.read_of_held hb
  have hpeer : ∀ U, Adaptor.peerIterator (⟨U, x⟩ : Adaptor K V) h (some q)
      = .error .badCast := by
    intro U
    simp [Adaptor.peerIterator, hq, Ne.symm hty]
  have he : AnyIterator.eq h ⟨some p⟩ ⟨some q⟩ = .error .badCast := by
    simp [AnyIterator.eq, hp, Adaptor.equal, hpeer T]
  refine ⟨he, ?_, ?_, ?_⟩
  · simp [AnyIterator.ne, he]
  · simp [Adaptor.equal, hpeer]
  · simp [Adaptor.assign, hpeer]

/-- C8 at a concrete input: the begin of a vector range against the begin of a set range. -/
theorem C8_cross_type_comparison_undefined_witness :
    (range123.begin_.held heapVecSet = some vec123.begin ∧
      rangeSet123.begin_.held heapVecSet = some set123.begin ∧
      vec123.begin.ty ≠ set123.begin.ty) ∧
    (AnyIterator.eq heapVecSet range123.begin_ rangeSet123.begin_ = .error .badCast ∧
      AnyIterator.ne heapVecSet range123.begin_ rangeSet123.begin_ = .error .badCast ∧
      Adaptor.equal ⟨.int, vec123.begin⟩ heapVecSet rangeSet123.begin_.wrapper_ = .error .badCast ∧
      Adaptor.assign ⟨.int, vec123.begin⟩ heapVecSet rangeSet123.begin_.wrapper_
        = .error .badCast) :=
  ⟨⟨rfl, rfl, by decide⟩,
    C8_cross_type_comparison_undefined heapVecSet range123.begin_ rangeSet123.begin_
      vec123.begin set123.begin .int rfl rfl (by decide)⟩

/-- Every member initialiser of the move constructor resolves to the copy constructor of
`AnyIterator`, so move construction does to the store what copy construction does. -/
theorem Iterable.moveCtor_eq_copyCtor (h : Heap K V) (X : Iterable) :
    Iterable.moveCtor h X = (Iterable.copyCtor h X).map (fun Bh => (Bh.1, X, Bh.2)) := by
  unfold Iterable.moveCtor Iterable.copyCtor
  cases AnyIterator.copy h X.begin_ with
  | error u => rfl
  | ok r1 =>
    obtain ⟨b', h1⟩ := r1
    simp only
    cases AnyIterator.copy h1 X.end_ with
    | error u => rfl
    | ok r2 => rfl

/-- C10, the code at `Iterable<int> B(std::move(A))` with `A = to_iterable(vec123)`:
both source members still hold their capability instances afterwards (cells 2 and 3, still
live, at the positions they had), and the new range holds two newly allocated clones (cells
4 and 5) instead of the instances of the source: nothing was transferred, exactly as in copy
construction. -/
theorem C10_move_does_not_transfer :
    ∃ B A h', Iterable.moveCtor heap123 range123 = .ok (B, A, h') ∧
      A.begin_.wrapper_ = some 2 ∧ A.end_.wrapper_ = some 3 ∧
      A.begin_ ≠ AnyIterator.empty ∧ A.end_ ≠ AnyIterator.empty ∧
      A.begin_.held h' = some vec123.begin ∧ A.end_.held h' = some vec123.end' ∧
      B.begin_.wrapper_ = some 4 ∧ B.end_.wrapper_ = some 5 ∧
      B.begin_.held h' = some vec123.begin ∧ B.end_.held h' = some vec123.end' ∧
      B.begin_.wrapper_ ≠ range123.begin_.wrapper_ ∧
      B.end_.wrapper_ ≠ range123.end_.wrapper_ ∧
      h'.cells.length = heap123.cells.length + 2 ∧
      Iterable.copyCtor heap123 range123 = .ok (B, h') :=
  ⟨⟨⟨some 4⟩, ⟨some 5⟩⟩, range123, _, rfl, rfl, rfl, by decide, by decide, rfl, rfl, rfl, rfl,
    rfl, rfl, by decide, by decide, rfl, rfl⟩

/-- C11: `begin()` and `end()` return copies and never change the `Iterable`. Every call
returns a new handle, different from the member and from the handles returned before, that
owns one newly allocated capability instance. With `b0` and `e0` taken from a freshly converted
range, and `it = r.begin()` advanced any number `m ≤ n` of times, a later `r.begin()` compares
equal to `b0`, holds the native begin and dereferences to the first element when there is one;
a later `r.end()` compares equal to `e0`; the members of `r` hold what they held, also after
the returned handles are destroyed; and traversing `r` twice yields the element list both
times. -/
theorem C11_begin_end_leave_iterable_unchanged [DecidableEq K] (h : Heap K V)
    (data : Container K V) (m : Nat) (hm : m ≤ data.elems.length) :
    ∃ r h1 b0 h2 e0 h3 it h4 h5 b1 h6 e1 h7,
      to_iterable h data = .ok (r, h1) ∧
      r.begin h1 = .ok (b0, h2) ∧ r.end' h2 = .ok (e0, h3) ∧
      r.begin h3 = .ok (it, h4) ∧ it.advance m h4 = .ok h5 ∧
      r.begin h5 = .ok (b1, h6) ∧ r.end' h6 = .ok (e1, h7) ∧
      (b0 ≠ r.begin_ ∧ e0 ≠ r.end_ ∧ it ≠ r.begin_ ∧ b1 ≠ r.begin_ ∧ e1 ≠ r.end_ ∧
        b1 ≠ b0 ∧ b1 ≠ it ∧ e1 ≠ e0) ∧
      (b0.wrapper_ = some h1.cells.length ∧ h2.cells.length = h1.cells.length + 1 ∧
        e0.wrapper_ = some h2.cells.length ∧ h3.cells.length = h2.cells.length + 1 ∧
        b1.wrapper_ = some h5.cells.length ∧ h6.cells.length = h5.cells.length + 1 ∧
        e1.wrapper_ = some h6.cells.length ∧ h7.cells.length = h6.cells.length + 1) ∧
      AnyIterator.eq h7 b1 b0 = .ok true ∧
      AnyIterator.eq h7 e1 e0 = .ok true ∧
      b1.held h7 = some data.begin ∧ e1.held h7 = some data.end' ∧
      (∀ v rest, data.elems = v :: rest → AnyIterator.deref h7 b1 = .ok v) ∧
      r.begin_.held h7 = some data.begin ∧ r.end_.held h7 = some data.end' ∧
      (e1.held (e1.destroy h7) = none ∧
        r.end_.held (e1.destroy h7) = some data.end' ∧
        e0.held (e1.destroy h7) = some data.end' ∧
        b1.held (b1.destroy (e1.destroy h7)) = none ∧
        r.begin_.held (b1.destroy (e1.destroy h7)) = some data.begin ∧
        r.end_.held (b1.destroy (e1.destroy h7)) = some data.end') ∧
      ∀ extra, ∃ hA hB,
        Iterable.traverse (data.elems.length + 1 + extra) h1 r
          = .ok (some (data.elems, hA)) ∧
        Iterable.traverse (data.elems.length + 1 + extra) hA r
          = .ok (some (data.elems, hB)) := by
  obtain ⟨T, hT⟩ : ∃ T, CType.decay data.derefType = T := ⟨_, rfl⟩
  have hto := to_iterable_eq_to_iterable_t h data hT
  obtain ⟨rb, re⟩ := to_iterable_t_cells T h data
  -- b0, e0
  obtain ⟨h2, c2, b2, l2, f2⟩ := AnyIterator.copy_spec rb
  have l1 : (⟨h.cells ++ [none, none, some ⟨T, data.begin⟩, some ⟨T, data.end'⟩]⟩ :
      Heap K V).cells.length = h.cells.length + 4 := by simp
  rw [l1] at c2 b2 l2 f2
  have re2 : h2.read (h.cells.length + 3) = .ok ⟨T, data.end'⟩ := by
    rw [f2 _ (by omega)]; exact re
  obtain ⟨h3, c3, b3, l3, f3⟩ := AnyIterator.copy_spec re2
  rw [l2] at c3 b3 f3
  -- it
  have rb3 : h3.read (h.cells.length + 2) = .ok ⟨T, data.begin⟩ := by
    rw [f3 _ (by omega), f2 _ (by omega)]; exact rb
  obtain ⟨h4, c4, b4, l4, f4⟩ := AnyIterator.copy_spec rb3
  have l3' : h3.cells.length = h.cells.length + 4 + 1 + 1 := by rw [l3, l2]
  rw [l3'] at c4 b4 l4 f4
  obtain ⟨h5, a1, _, l5, f5⟩ := AnyIterator.advance_of_read m h4 0 b4 (by simpa using hm)
  rw [l4] at l5
  -- b1, e1
  have rb5 : h5.read (h.cells.length + 2) = .ok ⟨T, data.begin⟩ := by
    rw [f5 _ (by omega), f4 _ (by omega)]; exact rb3
  obtain ⟨h6, c6, b6, l6, f6⟩ := AnyIterator.copy_spec rb5
  have re6 : h6.read (h.cells.length + 3) = .ok ⟨T, data.end'⟩ := by
    rw [f6 _ (by omega), f5 _ (by omega), f4 _ (by omega), f3 _ (by omega)]; exact re2
  obtain ⟨h7, c7, b7, l7, f7⟩ := AnyIterator.copy_spec re6
  have l6' : h6.cells.length = h.cells.length + 4 + 1 + 1 + 1 + 1 := by rw [l6, l5]
  -- the cells of interest in the final store
  have k0 : h7.read (h.cells.length + 4) = .ok ⟨T, data.begin⟩ := by
    rw [f7 _ (by omega), f6 _ (by omega), f5 _ (by omega), f4 _ (by omega),
      f3 _ (by omega)]; exact b2
  have k1 : h7.read (h.cells.length + 4 + 1) = .ok ⟨T, data.end'⟩ := by
    rw [f7 _ (by omega), f6 _ (by omega), f5 _ (by omega), f4 _ (by omega)]; exact b3
  have k2 : h7.read h5.cells.length = .ok ⟨T, data.begin⟩ := by
    rw [f7 _ (by omega)]; exact b6
  have k3 : h7.read (h.cells.length + 2) = .ok ⟨T, data.begin⟩ := by
    rw [f7 _ (by omega), f6 _ (by omega)]; exact rb5
  have k4 : h7.read (h.cells.length + 3) = .ok ⟨T, data.end'⟩ := by
    rw [f7 _ (by omega)]; exact re6
  -- what is left after the last two copies are destroyed
  have hne : ∀ {p q : Nat}, p ≠ q → (⟨some p⟩ : AnyIterator) ≠ ⟨some q⟩ := by
    intro p q hpq hc
    simp only [AnyIterator.mk.injEq, Option.some.injEq] at hc
    exact hpq hc
  have d1 : ∀ q, q ≠ h6.cells.length →
      (AnyIterator.destroy h7 ⟨some h6.cells.length⟩).read q = h7.read q :=
    fun q hq => Heap.read_free_of_ne h7 hq
  have d2 : ∀ q, q ≠ h5.cells.length → q ≠ h6.cells.length →
      (AnyIterator.destroy (AnyIterator.destroy h7 ⟨some h6.cells.length⟩)
        ⟨some h5.cells.length⟩).read q = h7.read q := by
    intro q hq5 hq6
    have := Heap.read_free_of_ne (AnyIterator.destroy h7 ⟨some h6.cells.length⟩) hq5
    simp only [AnyIterator.destroy] at this ⊢
    rw [this, Heap.read_free_of_ne h7 hq6]
  refine ⟨_, _, _, h2, _, h3, _, h4, h5, _, h6, _, h7, hto.trans (to_iterable_t_eq T h data),
    c2, c3, c4, a1, c6, c7,
    ⟨hne (by omega), hne (by omega), hne (by omega), hne (by omega), hne (by omega),
      hne (by omega), hne (by omega), hne (by omega)⟩,
    ⟨by rw [l1], by rw [l2, l1], by rw [l2], l3, rfl, l6, rfl, l7⟩,
    ?_, ?_, AnyIterator.held_of_read k2, AnyIterator.held_of_read b7, ?_,
    AnyIterator.held_of_read k3, AnyIterator.held_of_read k4,
    ⟨?_, ?_, ?_, ?_, ?_, ?_⟩, ?_⟩
  · have := AnyIterator.eq_of_read k2 k0 rfl rfl
    simpa using this
  · have := AnyIterator.eq_of_read b7 k1 rfl rfl
    simpa using this
  · intro v rest hv
    rw [AnyIterator.deref_of_read k2]
    simp [NativeIter.deref, Container.begin, hv]
  · simp [AnyIterator.held, AnyIterator.destroy, Heap.read_free_self]
  · have : (AnyIterator.destroy h7 ⟨some h6.cells.length⟩).read (h.cells.length + 3)
        = .ok ⟨T, data.end'⟩ := by rw [d1 _ (by omega)]; exact k4
    exact AnyIterator.held_of_read this
  · have : (AnyIterator.destroy h7 ⟨some h6.cells.length⟩).read (h.cells.length + 4 + 1)
        = .ok ⟨T, data.end'⟩ := by rw [d1 _ (by omega)]; exact k1
    exact AnyIterator.held_of_read this
  · simp [AnyIterator.held, AnyIterator.destroy, Heap.read_free_self]
  · have : (AnyIterator.destroy (AnyIterator.destroy h7 ⟨some h6.cells.length⟩)
        ⟨some h5.cells.length⟩).read (h.cells.length + 2) = .ok ⟨T, data.begin⟩ := by
      rw [d2 _ (by omega) (by omega)]; exact k3
    exact AnyIterator.held_of_read this
  · have : (AnyIterator.destroy (AnyIterator.destroy h7 ⟨some h6.cells.length⟩)
        ⟨some h5.cells.length⟩).read (h.cells.length + 3) = .ok ⟨T, data.end'⟩ := by
      rw [d2 _ (by omega) (by omega)]; exact k4
    exact AnyIterator.held_of_read this
  · intro extra
    obtain ⟨hA, t1, fA⟩ := Iterable.traverse_of_read (Nat.zero_le _) rb re extra
    have rbA : hA.read (h.cells.length + 2) = .ok ⟨T, data.begin⟩ := by
      rw [fA _ (by simp)]; exact rb
    have reA : hA.read (h.cells.length + 3) = .ok ⟨T, data.end'⟩ := by
      rw [fA _ (by simp)]; exact re
    obtain ⟨hB, t2, _⟩ := Iterable.traverse_of_read (Nat.zero_le _) rbA reA extra
    exact ⟨hA, hB, by simpa [Container.begin] using t1, by simpa [Container.begin] using t2⟩

/-- C11 at a concrete input: `vec123` in the empty store, `it` advanced twice. -/
theorem C11_begin_end_leave_iterable_unchanged_witness :
    2 ≤ vec123.elems.length ∧
    ∃ r h1 b0 h2 e0 h3 it h4 h5 b1 h6 e1 h7,
      to_iterable Heap.empty vec123 = .ok (r, h1) ∧
      r.begin h1 = .ok (b0, h2) ∧ r.end' h2 = .ok (e0, h3) ∧
      r.begin h3 = .ok (it, h4) ∧ it.advance 2 h4 = .ok h5 ∧
      r.begin h5 = .ok (b1, h6) ∧ r.end' h6 = .ok (e1, h7) ∧
      (b0 ≠ r.begin_ ∧ e0 ≠ r.end_ ∧ it ≠ r.begin_ ∧ b1 ≠ r.begin_ ∧ e1 ≠ r.end_ ∧
        b1 ≠ b0 ∧ b1 ≠ it ∧ e1 ≠ e0) ∧
      (b0.wrapper_ = some h1.cells.length ∧ h2.cells.length = h1.cells.length + 1 ∧
        e0.wrapper_ = some h2.cells.length ∧ h3.cells.length = h2.cells.length + 1 ∧
        b1.wrapper_ = some h5.cells.length ∧ h6.cells.length = h5.cells.length + 1 ∧
        e1.wrapper_ = some h6.cells.length ∧ h7.cells.length = h6.cells.length + 1) ∧
      AnyIterator.eq h7 b1 b0 = .ok true ∧
      AnyIterator.eq h7 e1 e0 = .ok true ∧
      b1.held h7 = some vec123.begin ∧ e1.held h7 = some vec123.end' ∧
      (∀ v rest, vec123.elems = v :: rest → AnyIterator.deref h7 b1 = .ok v) ∧
      r.begin_.held h7 = some vec123.begin ∧ r.end_.held h7 = some vec123.end' ∧
      (e1.held (e1.destroy h7) = none ∧
        r.end_.held (e1.destroy h7) = some vec123.end' ∧
        e0.held (e1.destroy h7) = some vec123.end' ∧
        b1.held (b1.destroy (e1.destroy h7)) = none ∧
        r.begin_.held (b1.destroy (e1.destroy h7)) = some vec123.begin ∧
        r.end_.held (b1.destroy (e1.destroy h7)) = some vec123.end') ∧
      ∀ extra, ∃ hA hB,
        Iterable.traverse (vec123.elems.length + 1 + extra) h1 r
          = .ok (some (vec123.elems, hA)) ∧
        Iterable.traverse (vec123.elems.length + 1 + extra) hA r
          = .ok (some (vec123.elems, hB)) :=
  ⟨by decide, C11_begin_end_leave_iterable_unchanged Heap.empty vec123 2 (by decide)⟩

/-- C13: pre-increment advances by exactly one step and returns the same handle. For a live
handle `it` at a position `k` that holds an element, `++it` is defined, returns `it` itself
(no capability instance is allocated), and leaves `it` at `k + 1`, not at `k` nor at `k + 2`:
`*it` is then the element at `k + 1` when there is one, and `it` equals an end handle of the
same sequence exactly when `k + 1` is the length; no other handle is moved. -/
theorem C13_pre_increment_one_step [DecidableEq K] (h : Heap K V) (it e : AnyIterator)
    (t : K) (cid : Nat) (s : List V) (k : Nat) (hit : it.held h = some ⟨t, cid, s, k⟩)
    (hk : k < s.length)
    (he : e.held h = some ⟨t, cid, s, s.length⟩) :
    ∃ h', AnyIterator.inc h it = .ok (it, h') ∧
      h'.cells.length = h.cells.length ∧
      it.held h' = some ⟨t, cid, s, k + 1⟩ ∧
      it.held h' ≠ some ⟨t, cid, s, k⟩ ∧ it.held h' ≠ some ⟨t, cid, s, k + 2⟩ ∧
      (∀ hk1 : k + 1 < s.length, AnyIterator.deref h' it = .ok s[k + 1]) ∧
      AnyIterator.eq h' it e = .ok (k + 1 == s.length) ∧
      ∀ y : AnyIterator, y ≠ it → y.held h' = y.held h := by
  obtain ⟨p, T, rfl, hp⟩ := AnyIterator.read_of_held hit
  obtain ⟨q, Tq, rfl, hq⟩ := AnyIterator.read_of_held he
  have hpl := Heap.lt_of_read_ok hp
  have hqp : q ≠ p := by
    intro hc
    rw [hc, hp] at hq
    have := congrArg (fun r => match r with
      | Except.ok (o : Adaptor K V) => o.iterator_.pos
      | Except.error _ => 0) hq
    simp only at this
    omega
  have hp' : (h.write p ⟨T, ⟨t, cid, s, k + 1⟩⟩).read p = .ok ⟨T, ⟨t, cid, s, k + 1⟩⟩ :=
    Heap.read_write_self _ hpl
  have hq' : (h.write p ⟨T, ⟨t, cid, s, k + 1⟩⟩).read q
      = .ok ⟨Tq, ⟨t, cid, s, s.length⟩⟩ := by
    rw [Heap.read_write_of_ne _ _ hqp]; exact hq
  have hheld := AnyIterator.held_of_read hp'
  refine ⟨_, AnyIterator.inc_of_read hp hk, Heap.length_write _ _ _, hheld, ?_, ?_, ?_, ?_,
    ?_⟩
  · rw [hheld]; simp
  · rw [hheld]; simp
  · intro hk1
    rw [AnyIterator.deref_of_read hp']
    simp [NativeIter.deref, hk1]
  · exact AnyIterator.eq_of_read hp' hq' rfl rfl
  · intro y hy
    apply AnyIterator.held_congr
    intro r hr
    apply Heap.read_write_of_ne
    intro hc
    apply hy
    obtain ⟨wy⟩ := y
    simp only at hr
    rw [hr, hc]

/-- C13 at a concrete input: the handle at position 1 of `[10, 20, 30]`, with the end member
of `range123` as end handle. -/
theorem C13_pre_increment_one_step_witness :
    (itMid.held heapMid = some ⟨.vectorConstIterator, 100, [10, 20, 30], 1⟩ ∧
      1 < [10, 20, 30].length ∧
      range123.end_.held heapMid
        = some ⟨.vectorConstIterator, 100, [10, 20, 30], [10, 20, 30].length⟩) ∧
    ∃ h', AnyIterator.inc heapMid itMid = .ok (itMid, h') ∧
      h'.cells.length = heapMid.cells.length ∧
      itMid.held h' = some ⟨.vectorConstIterator, 100, [10, 20, 30], 1 + 1⟩ ∧
      itMid.held h' ≠ some ⟨.vectorConstIterator, 100, [10, 20, 30], 1⟩ ∧
      itMid.held h' ≠ some ⟨.vectorConstIterator, 100, [10, 20, 30], 1 + 2⟩ ∧
      (∀ hk1 : 1 + 1 < [10, 20, 30].length,
        AnyIterator.deref h' itMid = .ok ([10, 20, 30][1 + 1])) ∧
      AnyIterator.eq h' itMid range123.end_ = .ok (1 + 1 == [10, 20, 30].length) ∧
      ∀ y : AnyIterator, y ≠ itMid → y.held h' = y.held heapMid :=
  ⟨⟨rfl, by decide, rfl⟩,
    C13_pre_increment_one_step heapMid itMid range123.end_ .vectorConstIterator 100 [10, 20, 30]
      1 rfl (by decide) rfl⟩

/-- C14: erased equality coincides with native position equality. For a container of size
`n` and `j, k ≤ n`, two begin copies of `to_iterable(C)` advanced `j` and `k` times compare
equal exactly when `j = k`, in either order of the operands; every handle equals itself; the
copy advanced `j` times equals the end copy exactly when `j = n`. So the begin-to-end loop has
not left after `n` or fewer tests of its condition and leaves at test `n + 1`, after `n`
steps. -/
theorem C14_erased_equality_is_position_equality [DecidableEq K] (h : Heap K V)
    (data : Container K V) (j k : Nat) (hj : j ≤ data.elems.length)
    (hk : k ≤ data.elems.length) :
    ∃ r h1 a h2 b h3 e h4 h5 h6,
      to_iterable h data = .ok (r, h1) ∧
      r.begin h1 = .ok (a, h2) ∧ r.begin h2 = .ok (b, h3) ∧ r.end' h3 = .ok (e, h4) ∧
      a.advance j h4 = .ok h5 ∧ b.advance k h5 = .ok h6 ∧
      AnyIterator.eq h6 a b = .ok (decide (j = k)) ∧
      AnyIterator.eq h6 b a = .ok (decide (j = k)) ∧
      AnyIterator.eq h6 a a = .ok true ∧ AnyIterator.eq h6 b b = .ok true ∧
      AnyIterator.eq h6 e e = .ok true ∧
      AnyIterator.eq h6 a e = .ok (decide (j = data.elems.length)) ∧
      AnyIterator.eq h6 e a = .ok (decide (j = data.elems.length)) ∧
      AnyIterator.ne h6 a e = .ok (decide (j < data.elems.length)) ∧
      (∀ fuel, fuel ≤ data.elems.length → Iterable.traverse fuel h1 r = .ok none) ∧
      ∀ extra, ∃ h7, Iterable.traverse (data.elems.length + 1 + extra) h1 r
        = .ok (some (data.elems, h7)) := by
  obtain ⟨T, hT⟩ : ∃ T, CType.decay data.derefType = T := ⟨_, rfl⟩
  have hto := fun (g : Heap K V) => to_iterable_eq_to_iterable_t g data hT
  obtain ⟨rb, re⟩ := to_iterable_t_cells T h data
  obtain ⟨h2, c2, b2, l2, f2⟩ := AnyIterator.copy_spec rb
  simp only [List.length_append, List.length_cons, List.length_nil, Nat.zero_add,
    Nat.reduceAdd] at c2 b2 l2 f2
  have rb2 : h2.read (h.cells.length + 2) = .ok ⟨T, data.begin⟩ := by
    rw [f2 _ (by omega)]; exact rb
  obtain ⟨h3, c3, b3, l3, f3⟩ := AnyIterator.copy_spec rb2
  rw [l2] at c3 b3 l3 f3
  have re3 : h3.read (h.cells.length + 3) = .ok ⟨T, data.end'⟩ := by
    rw [f3 _ (by omega), f2 _ (by omega)]; exact re
  obtain ⟨h4, c4, b4, l4, f4⟩ := AnyIterator.copy_spec re3
  rw [l3] at c4 b4 l4 f4
  have ra4 : h4.read (h.cells.length + 4) = .ok ⟨T, ⟨data.iterType, data.addr, data.elems, 0⟩⟩ := by
    rw [f4 _ (by omega), f3 _ (by omega)]; exact b2
  obtain ⟨h5, a5, ra5, f5, _⟩ := AnyIterator.advance_others j ra4 (by omega)
  have rb5 : h5.read (h.cells.length + 4 + 1) = .ok ⟨T, ⟨data.iterType, data.addr, data.elems, 0⟩⟩ := by
    rw [f5 _ (by omega), f4 _ (by omega)]; exact b3
  obtain ⟨h6, a6, rb6, f6, _⟩ := AnyIterator.advance_others k rb5 (by omega)
  have ra6 : h6.read (h.cells.length + 4) = .ok ⟨T, ⟨data.iterType, data.addr, data.elems, 0 + j⟩⟩ := by
    rw [f6 _ (by omega)]; exact ra5
  have re6 : h6.read (h.cells.length + 4 + 1 + 1)
      = .ok ⟨T, ⟨data.iterType, data.addr, data.elems, data.elems.length⟩⟩ := by
    rw [f6 _ (by omega), f5 _ (by omega)]; exact b4
  refine ⟨_, _, _, h2, _, h3, _, h4, h5, h6, (hto h).trans (to_iterable_t_eq T h data), c2, c3, c4, a5, a6,
    ?_, ?_, ?_, ?_, ?_, ?_, ?_, ?_, ?_, ?_⟩
  · rw [AnyIterator.eq_of_read ra6 rb6 rfl rfl]
    by_cases hjk : j = k <;> simp [hjk]
  · rw [AnyIterator.eq_of_read rb6 ra6 rfl rfl]
    by_cases hjk : j = k
    · simp [hjk]
    · have hkj : ¬ k = j := fun hc => hjk hc.symm
      simp [hjk, hkj]
  · rw [AnyIterator.eq_of_read ra6 ra6 rfl rfl]; simp
  · rw [AnyIterator.eq_of_read rb6 rb6 rfl rfl]; simp
  · rw [AnyIterator.eq_of_read re6 re6 rfl rfl]; simp
  · rw [AnyIterator.eq_of_read ra6 re6 rfl rfl]
    by_cases hjn : j = data.elems.length <;> simp [hjn]
  · rw [AnyIterator.eq_of_read re6 ra6 rfl rfl]
    by_cases hjn : j = data.elems.length
    · simp [hjn]
    · have hnj : ¬ data.elems.length = j := fun hc => hjn hc.symm
      simp [hjn, hnj]
  · rw [AnyIterator.ne_of_read ra6 re6 rfl rfl]
    by_cases hjn : j = data.elems.length
    · simp [hjn]
    · have : j < data.elems.length := by omega
      simp [hjn, this]
  · intro fuel hf
    exact Iterable.traverse_out_of_fuel rb re fuel hf
  · intro extra
    obtain ⟨h7, t1, _⟩ := Iterable.traverse_of_read (Nat.zero_le _) rb re extra
    exact ⟨h7, by simpa [Container.begin] using t1⟩

/-- C14 at a concrete input: `vec123` in the empty store, `j = 1`, `k = 3`. -/
theorem C14_erased_equality_is_position_equality_witness :
    (1 ≤ vec123.elems.length ∧ 3 ≤ vec123.elems.length) ∧
    ∃ r h1 a h2 b h3 e h4 h5 h6,
      to_iterable Heap.empty vec123 = .ok (r, h1) ∧
      r.begin h1 = .ok (a, h2) ∧ r.begin h2 = .ok (b, h3) ∧ r.end' h3 = .ok (e, h4) ∧
      a.advance 1 h4 = .ok h5 ∧ b.advance 3 h5 = .ok h6 ∧
      AnyIterator.eq h6 a b = .ok (decide (1 = 3)) ∧
      AnyIterator.eq h6 b a = .ok (decide (1 = 3)) ∧
      AnyIterator.eq h6 a a = .ok true ∧ AnyIterator.eq h6 b b = .ok true ∧
      AnyIterator.eq h6 e e = .ok true ∧
      AnyIterator.eq h6 a e = .ok (decide (1 = vec123.elems.length)) ∧
      AnyIterator.eq h6 e a = .ok (decide (1 = vec123.elems.length)) ∧
      AnyIterator.ne h6 a e = .ok (decide (1 < vec123.elems.length)) ∧
      (∀ fuel, fuel ≤ vec123.elems.length → Iterable.traverse fuel h1 r = .ok none) ∧
      ∀ extra, ∃ h7, Iterable.traverse (vec123.elems.length + 1 + extra) h1 r
        = .ok (some (vec123.elems, h7)) :=
  ⟨⟨by decide, by decide⟩,
    C14_erased_equality_is_position_equality Heap.empty vec123 1 3 (by decide) (by decide)⟩

/-- C16: inequality is exactly the negation of equality. For two live handles that wrap the
same adaptor type, `a == b` is the native `==` of the two held iterators and `a != b` its
negation: `a != b` is `true` exactly when `a == b` is `false`, and `false` exactly when it is
`true`; when the two iterate one container both are defined. For any two handles `a != b` is
defined exactly when `a == b` is, being `!(a == b)` computed from the same call. -/
theorem C16_ne_is_negation_of_eq [DecidableEq K] (h : Heap K V) (a b : AnyIterator)
    (x y : NativeIter K V) (ha : a.held h = some x) (hb : b.held h = some y)
    (hty : y.ty = x.ty) :
    AnyIterator.eq h a b = x.eq y ∧
    AnyIterator.ne h a b = (x.eq y).map (fun r => !r) ∧
    (AnyIterator.ne h a b = .ok true ↔ AnyIterator.eq h a b = .ok false) ∧
    (AnyIterator.ne h a b = .ok false ↔ AnyIterator.eq h a b = .ok true) ∧
    (x.cont = y.cont →
      AnyIterator.eq h a b = .ok (x.pos == y.pos) ∧
      AnyIterator.ne h a b = .ok (!(x.pos == y.pos))) ∧
    ∀ a' b' : AnyIterator,
      AnyIterator.ne h a' b' = (AnyIterator.eq h a' b').map (fun r => !r) ∧
      ((∃ r, AnyIterator.ne h a' b' = .ok r) ↔ (∃ r, AnyIterator.eq h a' b' = .ok r)) := by
  obtain ⟨p, T, rfl, hp⟩ := AnyIterator.read_of_held ha
  obtain ⟨q, Tq, rfl, hq⟩ := AnyIterator.read_of_held hb
  have hmap : ∀ a' b' : AnyIterator,
      AnyIterator.ne h a' b' = (AnyIterator.eq h a' b').map (fun r => !r) := by
    intro a' b'
    unfold AnyIterator.ne
    cases AnyIterator.eq h a' b' with
    | error u => rfl
    | ok r => rfl
  have he : AnyIterator.eq h ⟨some p⟩ ⟨some q⟩ = x.eq y := by
    simp [AnyIterator.eq, hp, hq, Adaptor.equal, Adaptor.peerIterator, hty]
  have hiff : ∀ r : Bool, AnyIterator.ne h ⟨some p⟩ ⟨some q⟩ = .ok (!r) ↔
      AnyIterator.eq h ⟨some p⟩ ⟨some q⟩ = .ok r := by
    intro r
    rw [hmap]
    cases AnyIterator.eq h ⟨some p⟩ ⟨some q⟩ with
    | error u => simp [Except.map]
    | ok r' => cases r <;> cases r' <;> simp [Except.map]
  refine ⟨he, by rw [hmap, he], hiff false, hiff true, ?_, ?_⟩
  · intro hc
    have hxy : x.eq y = .ok (x.pos == y.pos) := by simp [NativeIter.eq, hc]
    exact ⟨by rw [he, hxy], by rw [hmap, he, hxy]; rfl⟩
  · intro a' b'
    refine ⟨hmap a' b', ?_⟩
    rw [hmap]
    cases AnyIterator.eq h a' b' with
    | error u => simp [Except.map]
    | ok r => simp [Except.map]

/-- C16 at a concrete input: the begin and end members of `range123`, where `==` is `false`
and `!=` is `true`; and the begin members of the ranges over two different vectors with equal
elements, where the native `==` is outside its domain and so are `==` and `!=`. -/
theorem C16_ne_is_negation_of_eq_witness :
    (range123.begin_.held heap123 = some vec123.begin ∧
      range123.end_.held heap123 = some vec123.end' ∧
      vec123.end'.ty = vec123.begin.ty) ∧
    (AnyIterator.eq heap123 range123.begin_ range123.end_ = vec123.begin.eq vec123.end' ∧
    AnyIterator.ne heap123 range123.begin_ range123.end_
        = (vec123.begin.eq vec123.end').map (fun r => !r) ∧
    (AnyIterator.ne heap123 range123.begin_ range123.end_ = .ok true ↔
      AnyIterator.eq heap123 range123.begin_ range123.end_ = .ok false) ∧
    (AnyIterator.ne heap123 range123.begin_ range123.end_ = .ok false ↔
      AnyIterator.eq heap123 range123.begin_ range123.end_ = .ok true) ∧
    (vec123.begin.cont = vec123.end'.cont →
      AnyIterator.eq heap123 range123.begin_ range123.end_
        = .ok (vec123.begin.pos == vec123.end'.pos) ∧
      AnyIterator.ne heap123 range123.begin_ range123.end_
        = .ok (!(vec123.begin.pos == vec123.end'.pos))) ∧
    ∀ a' b' : AnyIterator,
      AnyIterator.ne heap123 a' b' = (AnyIterator.eq heap123 a' b').map (fun r => !r) ∧
      ((∃ r, AnyIterator.ne heap123 a' b' = .ok r) ↔
        (∃ r, AnyIterator.eq heap123 a' b' = .ok r))) ∧
    (AnyIterator.eq heap123 range123.begin_ range123.end_ = .ok false ∧
      AnyIterator.ne heap123 range123.begin_ range123.end_ = .ok true) ∧
    (rangeVec123b.begin_.held heapVecVec = some vec123b.begin ∧
      AnyIterator.eq heapVecVec range123.begin_ rangeVec123b.begin_ = .error .unrelated ∧
      AnyIterator.ne heapVecVec range123.begin_ rangeVec123b.begin_ = .error .unrelated) :=
  ⟨⟨rfl, rfl, rfl⟩,
    C16_ne_is_negation_of_eq heap123 range123.begin_ range123.end_ vec123.begin vec123.end'
      rfl rfl rfl,
    ⟨rfl, rfl⟩, ⟨rfl, rfl, rfl⟩⟩

end GenericIterator
